import Mathlib

/-!
Verification development for the star-seed-x ETL engine.

This file shallowly embeds the components of the repository that the
checked properties talk about, translated from the JavaScript sources:

* `src/utils/schemaValidator.js` (schema compatibility gate),
* `src/etl/modeDetector.js` (full/incremental/delta mode selection),
* `src/database/mariadb.js` (retrying query paths, error classification,
  query-metadata probing, transaction helpers),
* the SQLite state manager (checkpoints, incremental watermarks,
  deletion tombstones, fresh-start wipe),
* `src/etl/fullLoad.js` / `src/etl/incrementalLoad.js` /
  `src/etl/deltaLoad.js` (batch loops with keyset pagination,
  per-batch transactions and per-batch persistence),
* `src/etl/etlRunner.js` (fresh-start evaluation and the schema gate
  invocation).

Database effects are modelled by explicit state passing: the destination
table is a list of row keys, transactions accumulate pending inserts
that are published on commit and discarded on rollback, and the durable
SQLite state is an explicit record threaded through the run.
-/

namespace StarSeed

/-! ## Strings: JavaScript `String.prototype.includes` -/

/-- JavaScript `s.includes(t)`: `t` occurs as a contiguous substring of `s`. -/
def strIncludes (s t : String) : Bool :=
  decide (t.toList <:+: s.toList)

/-! ## SchemaValidator (`src/utils/schemaValidator.js`) -/

/-- One column-metadata record, as produced by
`INFORMATION_SCHEMA.COLUMNS` or by `getQueryColumnMetadata`. -/
structure Col where
  COLUMN_NAME : String
  DATA_TYPE : String
  IS_NULLABLE : String
  COLUMN_KEY : String
  EXTRA : String
deriving Repr, DecidableEq, Inhabited

/-- The compatibility groups of `SchemaValidator.areTypesCompatible`. -/
def typeGroups : List (List String) :=
  [ ["int", "integer", "bigint", "smallint", "tinyint", "mediumint"],
    ["varchar", "char", "text", "longtext", "mediumtext", "tinytext"],
    ["decimal", "numeric", "float", "double", "real"],
    ["datetime", "timestamp"],
    ["date"],
    ["time"],
    ["blob", "longblob", "mediumblob", "tinyblob", "binary", "varbinary"] ]

/-- `SchemaValidator.areTypesCompatible`: exact match after lowercasing,
or both lowercased types contain a member of a shared group. -/
def areTypesCompatible (sourceType destType : String) : Bool :=
  let normalizedSource := sourceType.toLower
  let normalizedDest := destType.toLower
  if normalizedSource == normalizedDest then true
  else
    typeGroups.any fun group =>
      group.any (fun t => strIncludes normalizedSource t) &&
      group.any (fun t => strIncludes normalizedDest t)

/-- Error text for a source column missing from destination. -/
def missingColMsg (n : String) : String :=
  "Column \x27" ++ n ++ "\x27 exists in source but not in destination"

/-- Warning text for a data-type mismatch. -/
def typeMismatchMsg (n srcTy dstTy : String) : String :=
  "Column \x27" ++ n ++ "\x27 has different data types: source=\x27" ++ srcTy ++
    "\x27, destination=\x27" ++ dstTy ++ "\x27"

/-- Warning text for a nullability mismatch. -/
def nullabilityMsg (n : String) : String :=
  "Column \x27" ++ n ++ "\x27 allows NULL in source but not in destination"

/-- Warning text for an extra destination column. -/
def extraColMsg (n : String) : String :=
  "Column \x27" ++ n ++ "\x27 exists in destination but not in source"

/-- Error text: configured primary key absent from destination. -/
def pkMissingMsg (pk : String) : String :=
  "Primary key column \x27" ++ pk ++ "\x27 not found in destination table"

/-- Error text: destination column is not declared PRIMARY KEY. -/
def pkNotPriMsg (pk got : String) : String :=
  "Column \x27" ++ pk ++ "\x27 is not a PRIMARY KEY in destination table. " ++
    "Expected COLUMN_KEY=\x27PRI\x27, got \x27" ++ got ++ "\x27"

/-- Error text: destination primary key is AUTO_INCREMENT. -/
def pkAutoIncMsg (pk : String) : String :=
  "Destination primary key \x27" ++ pk ++ "\x27 has AUTO_INCREMENT. " ++
    "This will cause conflicts when inserting data from source. " ++
    "Please remove AUTO_INCREMENT from destination table."

/-- JavaScript `Map.set` on an association list: an existing key keeps its
position and gets the new value, a new key is appended. -/
def mapUpsert (m : List (String × Col)) (c : Col) : List (String × Col) :=
  if m.any (fun p => p.1 == c.COLUMN_NAME) then
    m.map (fun p => if p.1 == c.COLUMN_NAME then (p.1, c) else p)
  else m ++ [(c.COLUMN_NAME, c)]

/-- `new Map(schema.map(col => [col.COLUMN_NAME, col]))`. -/
def toColMap (l : List Col) : List (String × Col) :=
  l.foldl mapUpsert []

/-- JavaScript `Map.has`. -/
def mapHas (m : List (String × Col)) (n : String) : Bool :=
  m.any (fun p => p.1 == n)

/-- JavaScript `Map.get` (the caller has already checked `has`). -/
def mapGet (m : List (String × Col)) (n : String) : Col :=
  (((m.find? (fun p => p.1 == n)).map (fun p => p.2))).getD default

/-- The accumulating validation result of
`SchemaValidator.validateSchemaCompatibility`. -/
structure SchemaResult where
  isCompatible : Bool
  errors : List String
  warnings : List String
deriving Repr, DecidableEq

/-- One iteration of the loop over the source-column map: a missing
destination column is an error and flips `isCompatible`; type and
nullability mismatches only append warnings. -/
def srcColStep (dstMap : List (String × Col)) (acc : SchemaResult)
    (p : String × Col) : SchemaResult :=
  if mapHas dstMap p.1 then
    let destCol := mapGet dstMap p.1
    let acc1 :=
      if areTypesCompatible p.2.DATA_TYPE destCol.DATA_TYPE then acc
      else { acc with
              warnings := acc.warnings ++
                [typeMismatchMsg p.1 p.2.DATA_TYPE destCol.DATA_TYPE] }
    if p.2.IS_NULLABLE == "YES" && destCol.IS_NULLABLE == "NO" then
      { acc1 with warnings := acc1.warnings ++ [nullabilityMsg p.1] }
    else acc1
  else
    { acc with errors := acc.errors ++ [missingColMsg p.1],
               isCompatible := false }

/-- The loop `for (const [colName, sourceCol] of sourceColumns)`. -/
def checkSrcColumns (dstMap : List (String × Col)) :
    List (String × Col) → SchemaResult → SchemaResult
  | [], acc => acc
  | p :: rest, acc => checkSrcColumns dstMap rest (srcColStep dstMap acc p)

/-- The loop `for (const colName of destColumns.keys())`: extra
destination columns are warnings only. -/
def checkExtraDest (srcMap : List (String × Col))
    (dstMap : List (String × Col)) (acc : SchemaResult) : SchemaResult :=
  dstMap.foldl
    (fun a p =>
      if mapHas srcMap p.1 then a
      else { a with warnings := a.warnings ++ [extraColMsg p.1] })
    acc

/-- Result of `SchemaValidator.validateDestinationPrimaryKey`. -/
structure PkResult where
  isValid : Bool
  errors : List String
  warnings : List String
deriving Repr, DecidableEq

/-- `SchemaValidator.validateDestinationPrimaryKey`: the configured key
must exist, be declared `PRI`, and not be AUTO_INCREMENT. -/
def validateDestinationPrimaryKey (destSchema : List Col)
    (primaryKeyColumn : String) : PkResult :=
  match destSchema.find? (fun c => c.COLUMN_NAME == primaryKeyColumn) with
  | none => ⟨false, [pkMissingMsg primaryKeyColumn], []⟩
  | some pkColumn =>
    let r1 : PkResult :=
      if pkColumn.COLUMN_KEY == "PRI" then ⟨true, [], []⟩
      else ⟨false,
        [pkNotPriMsg primaryKeyColumn
          (if pkColumn.COLUMN_KEY == "" then "none" else pkColumn.COLUMN_KEY)],
        []⟩
    if strIncludes pkColumn.EXTRA.toLower "auto_increment" then
      ⟨false, r1.errors ++ [pkAutoIncMsg primaryKeyColumn], r1.warnings⟩
    else r1

/-- `SchemaValidator.validateSchemaCompatibility`. -/
def validateSchemaCompatibility (sourceSchema destSchema : List Col)
    (primaryKeyColumn : Option String) : SchemaResult :=
  let srcMap := toColMap sourceSchema
  let dstMap := toColMap destSchema
  let r1 := checkSrcColumns dstMap srcMap ⟨true, [], []⟩
  let r2 := checkExtraDest srcMap dstMap r1
  match primaryKeyColumn with
  | none => r2
  | some pk =>
    let pkv := validateDestinationPrimaryKey destSchema pk
    if pkv.isValid then
      { r2 with warnings := r2.warnings ++ pkv.warnings }
    else
      { isCompatible := false,
        errors := r2.errors ++ pkv.errors,
        warnings := r2.warnings ++ pkv.warnings }

/-! ## Query metadata probing (`MariaDBPool.getQueryColumnMetadata`) -/

/-- One entry of the driver metadata (`result.meta`) from the zero-row
probe of the extraction query. -/
structure QueryColMeta where
  name : String
  typeCode : Nat
deriving Repr, DecidableEq

/-- `MariaDBPool.mapMariaDBType`: driver type code to type name. -/
def mapMariaDBType (typeCode : Nat) : String :=
  if typeCode == 0 then "decimal"
  else if typeCode == 1 then "tinyint"
  else if typeCode == 2 then "smallint"
  else if typeCode == 3 then "int"
  else if typeCode == 4 then "float"
  else if typeCode == 5 then "double"
  else if typeCode == 6 then "null"
  else if typeCode == 7 then "timestamp"
  else if typeCode == 8 then "bigint"
  else if typeCode == 9 then "mediumint"
  else if typeCode == 10 then "date"
  else if typeCode == 11 then "time"
  else if typeCode == 12 then "datetime"
  else if typeCode == 13 then "year"
  else if typeCode == 14 then "date"
  else if typeCode == 15 then "varchar"
  else if typeCode == 16 then "bit"
  else if typeCode == 245 then "json"
  else if typeCode == 246 then "decimal"
  else if typeCode == 247 then "enum"
  else if typeCode == 248 then "set"
  else if typeCode == 249 then "tinyblob"
  else if typeCode == 250 then "mediumblob"
  else if typeCode == 251 then "longblob"
  else if typeCode == 252 then "blob"
  else if typeCode == 253 then "varchar"
  else if typeCode == 254 then "char"
  else if typeCode == 255 then "geometry"
  else "unknown"

/-- `MariaDBPool.getQueryColumnMetadata`: every probed column is reported
with `IS_NULLABLE = YES` and `COLUMN_KEY` empty, since neither can be
determined from a query result. -/
def getQueryColumnMetadata (meta : List QueryColMeta) : List Col :=
  meta.map fun m =>
    { COLUMN_NAME := m.name,
      DATA_TYPE := mapMariaDBType m.typeCode,
      IS_NULLABLE := "YES",
      COLUMN_KEY := "",
      EXTRA := "" }

/-- The schema gate as invoked by `ETLRunner.run`:
`SchemaValidator.validateSchemaCompatibility(sourceSchema, destSchema)`
with no primary-key argument. -/
def runSchemaGate (sourceSchema destSchema : List Col) : SchemaResult :=
  validateSchemaCompatibility sourceSchema destSchema none

/-! ## ModeDetector (`src/etl/modeDetector.js`) -/

/-- The observations `ModeDetector.detectMode` makes of the two
databases: destination row count, presence of the configured
deleted-flag column on the source table, the number of rows flagged
deleted, and the discovered primary key columns of the source table. -/
structure ModeObs where
  destRowCount : Nat
  hasDeletedFlag : Bool
  deletedCount : Nat
  primaryKeyColumns : List String
deriving Repr, DecidableEq

/-- The detection result (`mode` and `details.primaryKeyColumn`). -/
structure ModeResult where
  mode : String
  primaryKeyColumn : Option String
deriving Repr, DecidableEq

/-- The `pkColumn` selection in `detectMode`: the configured key name if
it is among the discovered keys, else the first discovered key, else
the configured name unverified. -/
def pickPkColumn (configuredPk : String) (primaryKeyColumns : List String) :
    String :=
  if primaryKeyColumns.isEmpty then configuredPk
  else if primaryKeyColumns.contains configuredPk then configuredPk
  else primaryKeyColumns.headD configuredPk

/-- `ModeDetector.detectMode` as a pure decision procedure over the
observations: empty destination gives full; then a deleted-flag column
with at least one flagged row gives delta; then any discovered primary
key gives incremental; otherwise full. -/
def detectMode (configuredPk : String) (obs : ModeObs) : ModeResult :=
  if obs.destRowCount == 0 then ⟨"full", none⟩
  else
    let pkColumn := pickPkColumn configuredPk obs.primaryKeyColumns
    if obs.hasDeletedFlag && decide (0 < obs.deletedCount) then
      ⟨"delta", some pkColumn⟩
    else if !obs.primaryKeyColumns.isEmpty then
      ⟨"incremental", some pkColumn⟩
    else ⟨"full", none⟩

/-! ## SQLite state manager (checkpoints, watermarks, tombstones) -/

/-- One row of the `etl_checkpoint` table (fields relevant to the
claims). -/
structure CheckpointRow where
  sourceTable : String
  destinationTable : String
  mode : String
  status : String
deriving Repr, DecidableEq

/-- One row of the `incremental_state` table. -/
structure IncRow where
  sourceTable : String
  destinationTable : String
  primaryKeyColumn : String
  lastProcessedValue : String
deriving Repr, DecidableEq

/-- One row of the `deleted_records` table (a deletion tombstone). -/
structure TombRow where
  sourceTable : String
  destinationTable : String
  recordId : String
  processed : Bool
deriving Repr, DecidableEq

/-- The persisted SQLite state as a whole. -/
structure StateStore where
  checkpoints : List CheckpointRow
  incrementalState : List IncRow
  deletedRecords : List TombRow
deriving Repr, DecidableEq

/-- `SQLiteManager.getCheckpoint`: returns only rows whose status is
`in_progress` for the given pair and mode. -/
def getCheckpoint (st : StateStore) (s d m : String) : Option CheckpointRow :=
  st.checkpoints.find? fun r =>
    r.sourceTable == s && r.destinationTable == d && r.mode == m &&
      r.status == "in_progress"

/-- `SQLiteManager.clearAllCheckpoints`: delete every checkpoint row of
the pair, any mode and any status. -/
def clearAllCheckpoints (st : StateStore) (s d : String) : StateStore :=
  { st with checkpoints :=
      st.checkpoints.filter fun r =>
        !(r.sourceTable == s && r.destinationTable == d) }

/-- `SQLiteManager.clearIncrementalState`: delete the incremental
watermarks of the pair. -/
def clearIncrementalState (st : StateStore) (s d : String) : StateStore :=
  { st with incrementalState :=
      st.incrementalState.filter fun r =>
        !(r.sourceTable == s && r.destinationTable == d) }

/-- `SQLiteManager.clearAllState`: checkpoints plus incremental state of
the pair. The `deleted_records` table is not touched. -/
def clearAllState (st : StateStore) (s d : String) : StateStore :=
  clearIncrementalState (clearAllCheckpoints st s d) s d

/-- `ETLRunner.checkFreshStartConditions`: wipe on the forced-refresh
flag, or when the destination is empty and an in-progress full-mode
checkpoint exists; returns the new store and whether a wipe happened. -/
def checkFreshStartConditions (forceFullRefresh : Bool) (destRowCount : Nat)
    (st : StateStore) (s d : String) : StateStore × Bool :=
  if forceFullRefresh then (clearAllState st s d, true)
  else if destRowCount == 0 && (getCheckpoint st s d "full").isSome then
    (clearAllState st s d, true)
  else (st, false)

/-! ## Retrying query paths (`src/database/mariadb.js`) -/

/-- An error surfaced by the driver: a code and a message. -/
structure DBErr where
  code : String
  message : String
deriving Repr, DecidableEq

/-- The outcome the environment hands one query attempt. -/
inductive QueryOutcome where
  | ok : QueryOutcome
  | err : DBErr → QueryOutcome
deriving Repr, DecidableEq

/-- The transient-error codes of `MariaDBPool.isRetryableError`. -/
def retryableCodes : List String :=
  [ "PROTOCOL_CONNECTION_LOST",
    "ER_LOCK_DEADLOCK",
    "ER_LOCK_WAIT_TIMEOUT",
    "ECONNRESET",
    "ECONNREFUSED",
    "ETIMEDOUT",
    "ER_CON_COUNT_ERROR",
    "ER_TOO_MANY_USER_CONNECTIONS" ]

/-- `MariaDBPool.isRetryableError`: some listed code matches the error
code or occurs in the message, or the message mentions connection or
timeout (both checks sit inside the `some` callback in the source). -/
def isRetryableError (e : DBErr) : Bool :=
  retryableCodes.any fun code =>
    e.code == code || strIncludes e.message code ||
      strIncludes e.message "connection" || strIncludes e.message "timeout"

/-- What a retrying query path did: final outcome (`none` means
success), the number of the attempt it stopped at, and the backoff
delays slept between attempts. -/
structure RetryTrace where
  result : Option DBErr
  attemptsMade : Nat
  delays : List Nat
deriving Repr, DecidableEq

/-- The retry loop shared by `MariaDBPool.queryWithRetry` and
`MariaDBPool.queryInTransactionWithRetry`: attempt numbers count from
`attempt`; a retryable error before the last attempt sleeps
`retryDelay * attempt` and retries, anything else stops. `f` gives the
outcome the environment produces for each attempt number. -/
def queryRetryGo (f : Nat → QueryOutcome) (retryDelay maxAttempts : Nat) :
    Nat → RetryTrace
  | attempt =>
    match f attempt with
    | .ok => ⟨none, attempt, []⟩
    | .err e =>
      if _h : isRetryableError e = true ∧ attempt < maxAttempts then
        let rest := queryRetryGo f retryDelay maxAttempts (attempt + 1)
        ⟨rest.result, rest.attemptsMade, retryDelay * attempt :: rest.delays⟩
      else ⟨some e, attempt, []⟩
termination_by attempt => maxAttempts + 1 - attempt
decreasing_by omega

/-- `MariaDBPool.queryWithRetry` starts counting attempts at 1. -/
def queryWithRetry (f : Nat → QueryOutcome) (retryDelay maxAttempts : Nat) :
    RetryTrace :=
  queryRetryGo f retryDelay maxAttempts 1

/-- The constructor default `config.maxRetries || 3`. -/
def poolMaxRetries (cfg : Option Nat) : Nat :=
  match cfg with
  | none => 3
  | some n => if n == 0 then 3 else n

/-! ## Full load (`src/etl/fullLoad.js`, transactional version)

Rows are abstracted to their primary-key values (`Nat`); the source
table is the ascending key sequence the extraction query would return,
the destination table is the list of keys committed so far. Row-level
insert outcomes are an environment function `rowOk`; begin/commit
outcomes per batch number come from `beginOkAt` / `commitOkAt`. -/

/-- One persisted checkpoint of the full load (`etl_checkpoint` row
contents as saved by `saveCheckpoint` / `completeCheckpoint`). -/
structure Checkpoint where
  lastProcessedPk : Nat
  batchNumber : Nat
  rowsProcessed : Nat
  rowsInserted : Nat
  status : String
deriving Repr, DecidableEq

/-- A snapshot of the durable world, taken after each persistence
action (a destination commit, a checkpoint save, a checkpoint
completion): the committed destination keys and the stored
checkpoint. -/
structure Snap where
  dest : List Nat
  cp : Option Checkpoint
deriving Repr, DecidableEq

/-- The state of one full-load run: committed destination keys, stored
checkpoint, keyset cursor (`lastPrimaryKeyValue`), next batch number,
counters, and instrumentation — the sequence of checkpoint saves
(batch paired with the saved key), the persistence snapshots, and
whether the run aborted with a propagated error. -/
structure RunState where
  dest : List Nat
  cp : Option Checkpoint
  lastKey : Option Nat
  batchNumber : Nat
  rowsProcessed : Nat
  rowsInserted : Nat
  saves : List (List Nat × Nat)
  snaps : List Snap
  aborted : Bool
deriving Repr, DecidableEq

/-- The keys the keyset predicate leaves: everything, or everything
strictly above the cursor (`WHERE pk > lastKey`). -/
def keysetRem (src : List Nat) (lastKey : Option Nat) : List Nat :=
  match lastKey with
  | none => src
  | some k => src.filter fun x => decide (k < x)

/-- Keyset fetch: `WHERE pk > lastKey ORDER BY pk ASC LIMIT B` over a
source whose keys `src` are listed in query order. -/
def keysetFetch (src : List Nat) (lastKey : Option Nat) (B : Nat) :
    List Nat :=
  (keysetRem src lastKey).take B

/-- Batch fetch of `FullLoadProcessor.execute`: keyset pagination when
the key column is available, otherwise
`LIMIT B OFFSET (batchNumber-1)*B`. -/
def fetchBatch (hasPk : Bool) (src : List Nat) (lastKey : Option Nat)
    (batchNumber B : Nat) : List Nat :=
  if hasPk then keysetFetch src lastKey B
  else (src.drop ((batchNumber - 1) * B)).take B

/-- Outcome of one batch transaction: the destination contents
afterwards, whether the pooled connection ended up released, and the
batch result (`none` when an unrecoverable error propagated). -/
structure BatchTxOutcome where
  dest : List Nat
  connReleased : Bool
  result : Option (Nat × Nat)
deriving Repr, DecidableEq

/-- `processBatchWithTransaction` against the destination: begin a
transaction (a begin failure releases the connection inside
`beginTransaction` and propagates), insert each row with row-level
containment (a failed row is logged and skipped, the batch continues),
then commit (publishing the pending inserts) or, on commit failure,
leave the destination unchanged, release, and propagate. The result
carries (processed, inserted) counts. -/
def processBatchTx (beginOk commitOk : Bool) (rowOk : Nat → Bool)
    (dest : List Nat) (batch : List Nat) : BatchTxOutcome :=
  if !beginOk then ⟨dest, true, none⟩
  else
    let pending := batch.filter rowOk
    if commitOk then ⟨dest ++ pending, true, some (batch.length, pending.length)⟩
    else ⟨dest, true, none⟩

/-- One loop iteration of `FullLoadProcessor.execute` after a nonempty
fetch: run the batch transaction; on success update counters, record
the post-commit snapshot, and, when the key column is available,
advance the cursor to the last key of the batch (`lastPk` is updated
for every row, success or failure) and persist the checkpoint; on a
propagated error mark the run aborted with everything else unchanged. -/
def stepBatch (hasPk : Bool) (rowOk : Nat → Bool) (beginOk commitOk : Bool)
    (batch : List Nat) (st : RunState) : RunState :=
  match (processBatchTx beginOk commitOk rowOk st.dest batch).result with
  | none => { st with aborted := true }
  | some r =>
    let dest1 := (processBatchTx beginOk commitOk rowOk st.dest batch).dest
    let st1 : RunState :=
      { st with
        dest := dest1,
        rowsProcessed := st.rowsProcessed + r.1,
        rowsInserted := st.rowsInserted + r.2,
        snaps := st.snaps ++ [⟨dest1, st.cp⟩] }
    if hasPk then
      let pk := (batch.getLast?).getD 0
      let cp1 : Checkpoint :=
        ⟨pk, st.batchNumber, st1.rowsProcessed, st1.rowsInserted,
          "in_progress"⟩
      { st1 with
        lastKey := some pk,
        cp := some cp1,
        batchNumber := st.batchNumber + 1,
        saves := st.saves ++ [(batch, pk)],
        snaps := st1.snaps ++ [⟨dest1, some cp1⟩] }
    else { st1 with batchNumber := st.batchNumber + 1 }

/-- `completeCheckpoint`: flip the stored checkpoint to completed (a
no-op when none is stored) and snapshot the persistence state. -/
def completeCp (st : RunState) : RunState :=
  let cp1 := st.cp.map fun c => { c with status := "completed" }
  { st with cp := cp1, snaps := st.snaps ++ [⟨st.dest, cp1⟩] }

/-- The batch loop of `FullLoadProcessor.execute`, fuel-indexed (the
source loop is `while (true)` broken by an empty fetch; any fuel
exceeding the source size is enough). -/
def fullLoadGo (hasPk : Bool) (src : List Nat) (B : Nat)
    (rowOk : Nat → Bool) (beginOkAt commitOkAt : Nat → Bool) :
    Nat → RunState → RunState
  | 0, st => st
  | fuel + 1, st =>
    let batch := fetchBatch hasPk src st.lastKey st.batchNumber B
    if batch.isEmpty then
      if hasPk then completeCp st else st
    else
      let st1 := stepBatch hasPk rowOk (beginOkAt st.batchNumber)
        (commitOkAt st.batchNumber) batch st
      if st1.aborted then st1
      else fullLoadGo hasPk src B rowOk beginOkAt commitOkAt fuel st1

/-- The initial run state: destination contents `dest0`, and, when the
key column is available and an in-progress checkpoint was found,
resume from it (seed the cursor with its last key, continue its batch
numbering and counters). -/
def initState (hasPk : Bool) (dest0 : List Nat)
    (resume : Option Checkpoint) : RunState :=
  match (if hasPk then resume else none) with
  | none => ⟨dest0, none, none, 1, 0, 0, [], [], false⟩
  | some c =>
    ⟨dest0, some c, some c.lastProcessedPk, c.batchNumber + 1,
      c.rowsProcessed, c.rowsInserted, [], [], false⟩

/-- `FullLoadProcessor.execute` end to end. -/
def fullLoadExecute (hasPk : Bool) (src dest0 : List Nat) (B : Nat)
    (rowOk : Nat → Bool) (beginOkAt commitOkAt : Nat → Bool)
    (resume : Option Checkpoint) (fuel : Nat) : RunState :=
  fullLoadGo hasPk src B rowOk beginOkAt commitOkAt fuel
    (initState hasPk dest0 resume)

/-! ## Incremental load (`src/etl/incrementalLoad.js`) -/

/-- State of one incremental run: destination keys, the current
watermark (`currentLastValue`), counters, the sequence of
`updateLastProcessedValue` saves (batch paired with the saved value),
and the aborted flag. -/
structure IncState where
  dest : List Nat
  watermark : Option Nat
  rowsProcessed : Nat
  rowsInserted : Nat
  saves : List (List Nat × Nat)
  aborted : Bool
deriving Repr, DecidableEq

/-- The batch loop of `IncrementalLoadProcessor.execute`: fetch
`key > watermark ORDER BY key ASC LIMIT B`; on a committed batch
advance the watermark to the last key of the batch (updated for every
row, success or failure) and persist it immediately; an unrecoverable
transaction error aborts the run. -/
def incrementalGo (src : List Nat) (B : Nat) (rowOk : Nat → Bool)
    (beginOkAt commitOkAt : Nat → Bool) :
    Nat → Nat → IncState → IncState
  | 0, _, st => st
  | fuel + 1, bn, st =>
    let batch := keysetFetch src st.watermark B
    if batch.isEmpty then st
    else
      match (processBatchTx (beginOkAt bn) (commitOkAt bn) rowOk st.dest
          batch).result with
      | none => { st with aborted := true }
      | some r =>
        let dest1 := (processBatchTx (beginOkAt bn) (commitOkAt bn) rowOk
          st.dest batch).dest
        let pk := (batch.getLast?).getD 0
        incrementalGo src B rowOk beginOkAt commitOkAt fuel (bn + 1)
          { dest := dest1,
            watermark := some pk,
            rowsProcessed := st.rowsProcessed + r.1,
            rowsInserted := st.rowsInserted + r.2,
            saves := st.saves ++ [(batch, pk)],
            aborted := false }

/-- `IncrementalLoadProcessor.execute`: seed the watermark from the
stored value (absent means an unbounded first run) and loop. -/
def incrementalExecute (src : List Nat) (B : Nat) (rowOk : Nat → Bool)
    (beginOkAt commitOkAt : Nat → Bool) (stored : Option Nat)
    (fuel : Nat) : IncState :=
  incrementalGo src B rowOk beginOkAt commitOkAt fuel 1
    ⟨[], stored, 0, 0, [], false⟩

/-- The saved (batch, key) sequence a keyset batch loop produces from a
given cursor and batch number: it depends only on the source keys, the
batch size, and the begin/commit outcomes — not on row-level insert
outcomes. -/
def pkSeq (src : List Nat) (B : Nat) (beginOkAt commitOkAt : Nat → Bool) :
    Nat → Option Nat → Nat → List (List Nat × Nat)
  | 0, _, _ => []
  | fuel + 1, lastKey, bn =>
    let batch := keysetFetch src lastKey B
    if batch.isEmpty then []
    else if beginOkAt bn && commitOkAt bn then
      let pk := (batch.getLast?).getD 0
      (batch, pk) :: pkSeq src B beginOkAt commitOkAt fuel (some pk) (bn + 1)
    else []

/-! ## Delta load (`src/etl/deltaLoad.js`) -/

/-- The observable persistence/database events of one delta run. -/
inductive DeltaEv where
  | addTomb : Nat → DeltaEv
  | beginTx : DeltaEv
  | delAttempt : Nat → Bool → DeltaEv
  | commitTx : DeltaEv
  | rollbackTx : DeltaEv
  | markProcessed : List Nat → DeltaEv
deriving Repr, DecidableEq

/-- Chunk a list into `B`-sized slices (`for (let i = 0; i < n; i += B)`
with `slice(i, i + B)`), fuel-indexed by the list length. -/
def chunksGo (B : Nat) : Nat → List Nat → List (List Nat)
  | 0, l => if l.isEmpty then [] else [l]
  | fuel + 1, l =>
    if l.isEmpty then [] else l.take B :: chunksGo B fuel (l.drop B)

/-- Chunking with enough fuel for any positive `B`. -/
def chunksOf (B : Nat) (l : List Nat) : List (List Nat) :=
  chunksGo B l.length l

/-- Events of one deletion chunk: begin the transaction, attempt each
delete with per-id containment, then commit and (back in `execute`)
mark the whole chunk processed — or roll back and abort on an
unrecoverable error. Returns the events and whether the run aborted. -/
def chunkTrace (delOk : Nat → Bool) (beginOk commitOk : Bool)
    (chunk : List Nat) : List DeltaEv × Bool :=
  if !beginOk then ([], true)
  else
    let dels := chunk.map fun id => DeltaEv.delAttempt id (delOk id)
    if commitOk then
      (DeltaEv.beginTx :: dels ++
        [DeltaEv.commitTx, DeltaEv.markProcessed chunk], false)
    else (DeltaEv.beginTx :: dels ++ [DeltaEv.rollbackTx], true)

/-- Events of the chunk loop of `DeltaLoadProcessor.execute`. -/
def chunksTrace (delOk : Nat → Bool) (beginOkAt commitOkAt : Nat → Bool) :
    List (List Nat) → Nat → List DeltaEv
  | [], _ => []
  | c :: rest, bn =>
    let t := chunkTrace delOk (beginOkAt bn) (commitOkAt bn) c
    if t.2 then t.1
    else t.1 ++ chunksTrace delOk beginOkAt commitOkAt rest (bn + 1)

/-- The event trace of `DeltaLoadProcessor.execute`: when the deleted
set is empty nothing happens; otherwise every discovered id is first
recorded as a tombstone, then the ids are chunked to the batch size
and deleted chunk by chunk. -/
def deltaExecTrace (delOk : Nat → Bool) (beginOkAt commitOkAt : Nat → Bool)
    (B : Nat) (deletedIds : List Nat) : List DeltaEv :=
  if deletedIds.isEmpty then []
  else
    deletedIds.map DeltaEv.addTomb ++
      chunksTrace delOk beginOkAt commitOkAt (chunksOf B deletedIds) 1

/-- The `markProcessed` payloads of a trace, in order. -/
def marksOf (t : List DeltaEv) : List (List Nat) :=
  t.filterMap fun e =>
    match e with
    | DeltaEv.markProcessed l => some l
    | _ => none

/-- Whether an event is a destination delete attempt. -/
def isDelAttempt : DeltaEv → Bool
  | DeltaEv.delAttempt _ _ => true
  | _ => false

/-- Every `markProcessed` event is immediately preceded by the commit
of its chunk transaction. -/
def marksFollowCommit : List DeltaEv → Bool
  | [] => true
  | DeltaEv.commitTx :: DeltaEv.markProcessed _ :: rest =>
    marksFollowCommit rest
  | DeltaEv.markProcessed _ :: _ => false
  | _ :: rest => marksFollowCommit rest

/-! ## Lemmas about the schema validator -/

lemma srcColStep_errors (dstMap : List (String × Col)) (acc : SchemaResult)
    (p : String × Col) :
    (srcColStep dstMap acc p).errors =
      if mapHas dstMap p.1 then acc.errors
      else acc.errors ++ [missingColMsg p.1] := by
  unfold srcColStep
  by_cases h : mapHas dstMap p.1 = true
  · simp only [h, if_true]
    split <;> split <;> rfl
  · simp only [Bool.not_eq_true] at h
    simp [h]

lemma srcColStep_isCompatible (dstMap : List (String × Col))
    (acc : SchemaResult) (p : String × Col) :
    (srcColStep dstMap acc p).isCompatible =
      (acc.isCompatible && mapHas dstMap p.1) := by
  unfold srcColStep
  by_cases h : mapHas dstMap p.1 = true
  · simp only [h, if_true, Bool.and_true]
    split <;> split <;> rfl
  · simp only [Bool.not_eq_true] at h
    simp [h]

lemma srcColStep_warn_mem (dstMap : List (String × Col))
    (acc : SchemaResult) (p : String × Col) (w : String)
    (hw : w ∈ acc.warnings) :
    w ∈ (srcColStep dstMap acc p).warnings := by
  unfold srcColStep
  by_cases h : mapHas dstMap p.1 = true
  · simp only [h, if_true]
    split <;> split <;> simp [List.mem_append, hw]
  · simp only [Bool.not_eq_true] at h
    simp [h, hw]

lemma srcColStep_warn_mismatch (dstMap : List (String × Col))
    (acc : SchemaResult) (p : String × Col)
    (hhas : mapHas dstMap p.1 = true)
    (hmis : areTypesCompatible p.2.DATA_TYPE
      (mapGet dstMap p.1).DATA_TYPE = false) :
    typeMismatchMsg p.1 p.2.DATA_TYPE (mapGet dstMap p.1).DATA_TYPE ∈
      (srcColStep dstMap acc p).warnings := by
  unfold srcColStep
  simp only [hhas, if_true, hmis, Bool.false_eq_true, if_false]
  split <;> simp

lemma checkSrcColumns_errors (dstMap : List (String × Col)) :
    ∀ (l : List (String × Col)) (acc : SchemaResult),
      (checkSrcColumns dstMap l acc).errors =
        acc.errors ++
          ((l.filter fun p => !mapHas dstMap p.1).map
            fun p => missingColMsg p.1) := by
  intro l
  induction l with
  | nil => intro acc; simp [checkSrcColumns]
  | cons p rest ih =>
    intro acc
    rw [checkSrcColumns, ih, srcColStep_errors]
    by_cases h : mapHas dstMap p.1 = true
    · simp [h]
    · simp only [Bool.not_eq_true] at h
      simp [h, List.append_assoc]

lemma checkSrcColumns_isCompatible (dstMap : List (String × Col)) :
    ∀ (l : List (String × Col)) (acc : SchemaResult),
      (checkSrcColumns dstMap l acc).isCompatible =
        (acc.isCompatible && l.all fun p => mapHas dstMap p.1) := by
  intro l
  induction l with
  | nil => intro acc; simp [checkSrcColumns]
  | cons p rest ih =>
    intro acc
    rw [checkSrcColumns, ih, srcColStep_isCompatible]
    simp [Bool.and_assoc]

lemma checkSrcColumns_warn_mem (dstMap : List (String × Col)) :
    ∀ (l : List (String × Col)) (acc : SchemaResult) (w : String),
      w ∈ acc.warnings → w ∈ (checkSrcColumns dstMap l acc).warnings := by
  intro l
  induction l with
  | nil => intro acc w hw; exact hw
  | cons p rest ih =>
    intro acc w hw
    rw [checkSrcColumns]
    exact ih _ w (srcColStep_warn_mem dstMap acc p w hw)

lemma checkSrcColumns_warn_mismatch (dstMap : List (String × Col)) :
    ∀ (l : List (String × Col)) (acc : SchemaResult),
      ∀ p ∈ l, mapHas dstMap p.1 = true →
        areTypesCompatible p.2.DATA_TYPE
          (mapGet dstMap p.1).DATA_TYPE = false →
        typeMismatchMsg p.1 p.2.DATA_TYPE (mapGet dstMap p.1).DATA_TYPE ∈
          (checkSrcColumns dstMap l acc).warnings := by
  intro l
  induction l with
  | nil => intro acc p hp; exact absurd hp (List.not_mem_nil p)
  | cons q rest ih =>
    intro acc p hp hhas hmis
    rw [checkSrcColumns]
    rcases List.mem_cons.mp hp with h | h
    · subst h
      exact checkSrcColumns_warn_mem dstMap rest _ _
        (srcColStep_warn_mismatch dstMap acc p hhas hmis)
    · exact ih _ p h hhas hmis

lemma checkExtraDest_errors (srcMap : List (String × Col)) :
    ∀ (l : List (String × Col)) (acc : SchemaResult),
      (checkExtraDest srcMap l acc).errors = acc.errors := by
  intro l
  induction l with
  | nil => intro acc; rfl
  | cons p rest ih =>
    intro acc
    unfold checkExtraDest at ih ⊢
    rw [List.foldl_cons]
    rw [ih]
    split <;> rfl

lemma checkExtraDest_isCompatible (srcMap : List (String × Col)) :
    ∀ (l : List (String × Col)) (acc : SchemaResult),
      (checkExtraDest srcMap l acc).isCompatible = acc.isCompatible := by
  intro l
  induction l with
  | nil => intro acc; rfl
  | cons p rest ih =>
    intro acc
    unfold checkExtraDest at ih ⊢
    rw [List.foldl_cons, ih]
    split <;> rfl

lemma checkExtraDest_warn_mem (srcMap : List (String × Col)) :
    ∀ (l : List (String × Col)) (acc : SchemaResult) (w : String),
      w ∈ acc.warnings → w ∈ (checkExtraDest srcMap l acc).warnings := by
  intro l
  induction l with
  | nil => intro acc w hw; exact hw
  | cons p rest ih =>
    intro acc w hw
    unfold checkExtraDest at ih ⊢
    rw [List.foldl_cons]
    by_cases h : mapHas srcMap p.1 = true
    · simp only [h, if_true]
      exact ih acc w hw
    · simp only [h, if_false]
      refine ih _ w ?_
      simp [List.mem_append, hw]

lemma validateDestinationPrimaryKey_isValid_iff (d : List Col) (pk : String) :
    (validateDestinationPrimaryKey d pk).isValid = true ↔
      (validateDestinationPrimaryKey d pk).errors = [] := by
  unfold validateDestinationPrimaryKey
  cases hf : d.find? (fun c => c.COLUMN_NAME == pk) with
  | none => simp
  | some c =>
    dsimp only
    split <;> split <;> simp

lemma validateSchemaCompatibility_errors_none (src dst : List Col) :
    (validateSchemaCompatibility src dst none).errors =
      (((toColMap src).filter fun p => !mapHas (toColMap dst) p.1).map
        fun p => missingColMsg p.1) := by
  unfold validateSchemaCompatibility
  rw [checkExtraDest_errors, checkSrcColumns_errors]
  simp

lemma validateSchemaCompatibility_isCompatible_none (src dst : List Col) :
    (validateSchemaCompatibility src dst none).isCompatible =
      ((toColMap src).all fun p => mapHas (toColMap dst) p.1) := by
  unfold validateSchemaCompatibility
  rw [checkExtraDest_isCompatible, checkSrcColumns_isCompatible]
  simp

lemma all_iff_filter_not_nil (l : List (String × Col))
    (f : (String × Col) → Bool) :
    (l.all f = true) ↔ l.filter (fun p => !f p) = [] := by
  induction l with
  | nil => simp
  | cons p rest ih =>
    by_cases h : f p = true
    · simp [h, ih]
    · simp only [Bool.not_eq_true] at h
      simp [h]

lemma validateSchemaCompatibility_errors_some (src dst : List Col)
    (pkc : String) :
    (validateSchemaCompatibility src dst (some pkc)).errors =
      (validateSchemaCompatibility src dst none).errors ++
        (if (validateDestinationPrimaryKey dst pkc).isValid then []
         else (validateDestinationPrimaryKey dst pkc).errors) := by
  unfold validateSchemaCompatibility
  by_cases hv : (validateDestinationPrimaryKey dst pkc).isValid = true
  · simp [hv]
  · simp only [Bool.not_eq_true] at hv
    simp [hv]

lemma validateSchemaCompatibility_isCompatible_some (src dst : List Col)
    (pkc : String) :
    (validateSchemaCompatibility src dst (some pkc)).isCompatible =
      ((validateSchemaCompatibility src dst none).isCompatible &&
        (validateDestinationPrimaryKey dst pkc).isValid) := by
  unfold validateSchemaCompatibility
  by_cases hv : (validateDestinationPrimaryKey dst pkc).isValid = true
  · simp [hv]
  · simp only [Bool.not_eq_true] at hv
    simp [hv]

lemma validateSchemaCompatibility_compat_iff (src dst : List Col)
    (pk : Option String) :
    (validateSchemaCompatibility src dst pk).isCompatible = true ↔
      (validateSchemaCompatibility src dst pk).errors = [] := by
  have hnone : (validateSchemaCompatibility src dst none).isCompatible = true ↔
      (validateSchemaCompatibility src dst none).errors = [] := by
    rw [validateSchemaCompatibility_errors_none,
      validateSchemaCompatibility_isCompatible_none,
      all_iff_filter_not_nil, List.map_eq_nil_iff]
  cases pk with
  | none => exact hnone
  | some pkc =>
    rw [validateSchemaCompatibility_errors_some,
      validateSchemaCompatibility_isCompatible_some, List.append_eq_nil,
      Bool.and_eq_true, hnone]
    by_cases hv : (validateDestinationPrimaryKey dst pkc).isValid = true
    · simp [hv]
    · have hne : (validateDestinationPrimaryKey dst pkc).errors ≠ [] := by
        intro hcon
        exact hv ((validateDestinationPrimaryKey_isValid_iff dst pkc).mpr hcon)
      simp only [Bool.not_eq_true] at hv
      simp [hv, hne]

lemma mapUpsert_has (m : List (String × Col)) (c : Col) (n : String) :
    mapHas (mapUpsert m c) n = (mapHas m n || (c.COLUMN_NAME == n)) := by
  unfold mapUpsert mapHas
  by_cases h : m.any (fun p => p.1 == c.COLUMN_NAME) = true
  · simp only [h, if_true, List.any_map]
    have heq : ((fun p : String × Col => p.1 == n) ∘ fun p =>
        if p.1 == c.COLUMN_NAME then (p.1, c) else p) =
          fun p : String × Col => p.1 == n := by
      funext p
      simp only [Function.comp_apply]
      split <;> rfl
    rw [heq]
    by_cases hcn : (c.COLUMN_NAME == n) = true
    · have : c.COLUMN_NAME = n := by simpa using hcn
      subst this
      simp [h]
    · simp only [Bool.not_eq_true] at hcn
      simp [hcn]
  · simp only [Bool.not_eq_true] at h
    simp [h, List.any_append]

lemma toColMap_foldl_has (n : String) :
    ∀ (l : List Col) (m : List (String × Col)),
      mapHas (l.foldl mapUpsert m) n =
        (mapHas m n || l.any fun c => c.COLUMN_NAME == n) := by
  intro l
  induction l with
  | nil => intro m; simp
  | cons c rest ih =>
    intro m
    rw [List.foldl_cons, ih, mapUpsert_has]
    simp [Bool.or_assoc]

lemma toColMap_has (l : List Col) (n : String) :
    mapHas (toColMap l) n = l.any fun c => c.COLUMN_NAME == n := by
  unfold toColMap
  rw [toColMap_foldl_has]
  simp [mapHas]

lemma toColMap_key_mem :
    ∀ (l : List Col) (m : List (String × Col)) (p : String × Col),
      p ∈ l.foldl mapUpsert m →
      (mapHas m p.1 || l.any fun c => c.COLUMN_NAME == p.1) = true := by
  intro l
  induction l with
  | nil =>
    intro m p hp
    simp only [List.foldl_nil] at hp
    simp only [List.any_nil, Bool.or_false, mapHas]
    exact List.any_eq_true.mpr ⟨p, hp, by simp⟩
  | cons c rest ih =>
    intro m p hp
    rw [List.foldl_cons] at hp
    have h1 := ih (mapUpsert m c) p hp
    rw [mapUpsert_has] at h1
    simp only [List.any_cons]
    simp only [Bool.or_eq_true] at h1 ⊢
    tauto

lemma toColMap_key_of_mem (l : List Col) (p : String × Col)
    (hp : p ∈ toColMap l) :
    (l.any fun c => c.COLUMN_NAME == p.1) = true := by
  have := toColMap_key_mem l [] p hp
  simpa [mapHas] using this

lemma mapHas_toColMap_of_mem (l : List Col) (p : String × Col)
    (hp : p ∈ toColMap l) : mapHas (toColMap l) p.1 = true := by
  rw [toColMap_has]
  exact toColMap_key_of_mem l p hp

lemma validateSchemaCompatibility_warn_mem (src dst : List Col)
    (pk : Option String) (w : String)
    (hw : w ∈ (checkExtraDest (toColMap src) (toColMap dst)
      (checkSrcColumns (toColMap dst) (toColMap src)
        ⟨true, [], []⟩)).warnings) :
    w ∈ (validateSchemaCompatibility src dst pk).warnings := by
  unfold validateSchemaCompatibility
  cases pk with
  | none => exact hw
  | some pkc =>
    by_cases hv : (validateDestinationPrimaryKey dst pkc).isValid = true
    · simp [hv, List.mem_append, hw]
    · simp only [Bool.not_eq_true] at hv
      simp [hv, List.mem_append, hw]

lemma missingColMsg_mem_errors (src dst : List Col) (pk : Option String)
    (c : Col) (hc : c ∈ src)
    (hmiss : ∀ d ∈ dst, d.COLUMN_NAME ≠ c.COLUMN_NAME) :
    missingColMsg c.COLUMN_NAME ∈
      (validateSchemaCompatibility src dst pk).errors := by
  have hdst : mapHas (toColMap dst) c.COLUMN_NAME = false := by
    rw [toColMap_has]
    rw [List.any_eq_false]
    intro d hd
    simp [hmiss d hd]
  have hsrc : mapHas (toColMap src) c.COLUMN_NAME = true := by
    rw [toColMap_has]
    exact List.any_eq_true.mpr ⟨c, hc, by simp⟩
  obtain ⟨p, hp, hpeq⟩ := List.any_eq_true.mp hsrc
  have hkey : p.1 = c.COLUMN_NAME := by simpa using hpeq
  have hmem0 : missingColMsg c.COLUMN_NAME ∈
      (validateSchemaCompatibility src dst none).errors := by
    rw [validateSchemaCompatibility_errors_none]
    refine List.mem_map.mpr ⟨p, ?_, by rw [hkey]⟩
    refine List.mem_filter.mpr ⟨hp, ?_⟩
    rw [hkey, hdst]
    rfl
  cases pk with
  | none => exact hmem0
  | some pkc =>
    rw [validateSchemaCompatibility_errors_some]
    exact List.mem_append_left _ hmem0

/-- Claim C1: for every pair of source and destination column-metadata
lists, `validateSchemaCompatibility` flags a source column absent from
the destination as an ERROR naming the column and sets
`isCompatible = false`; `isCompatible` is true exactly when the error
list is empty, so a data-type mismatch between a present column pair —
including a cross-group one — only appends a WARNING and leaves the
result compatible whenever every source column is present. -/
theorem claim_C1_schema_validation (src dst : List Col) (pk : Option String) :
    ((validateSchemaCompatibility src dst pk).isCompatible = true ↔
      (validateSchemaCompatibility src dst pk).errors = []) ∧
    (∀ c ∈ src, (∀ d ∈ dst, d.COLUMN_NAME ≠ c.COLUMN_NAME) →
      (validateSchemaCompatibility src dst pk).isCompatible = false ∧
      missingColMsg c.COLUMN_NAME ∈
        (validateSchemaCompatibility src dst pk).errors) ∧
    (∀ p ∈ toColMap src, mapHas (toColMap dst) p.1 = true →
      areTypesCompatible p.2.DATA_TYPE (mapGet (toColMap dst) p.1).DATA_TYPE
        = false →
      typeMismatchMsg p.1 p.2.DATA_TYPE
          (mapGet (toColMap dst) p.1).DATA_TYPE ∈
        (validateSchemaCompatibility src dst pk).warnings) ∧
    ((∀ c ∈ src, (dst.any fun d => d.COLUMN_NAME == c.COLUMN_NAME) = true) →
      (validateSchemaCompatibility src dst none).isCompatible = true) := by
  refine ⟨validateSchemaCompatibility_compat_iff src dst pk, ?_, ?_, ?_⟩
  · intro c hc hmiss
    have hmem := missingColMsg_mem_errors src dst pk c hc hmiss
    have hne : (validateSchemaCompatibility src dst pk).errors ≠ [] := by
      intro hcon
      rw [hcon] at hmem
      exact List.not_mem_nil _ hmem
    refine ⟨?_, hmem⟩
    have := (validateSchemaCompatibility_compat_iff src dst pk).mp
    rcases hb : (validateSchemaCompatibility src dst pk).isCompatible with _ | _
    · rfl
    · exact absurd (this hb) hne
  · intro p hp hhas hmis
    refine validateSchemaCompatibility_warn_mem src dst pk _ ?_
    refine checkExtraDest_warn_mem (toColMap src) (toColMap dst) _ _ ?_
    exact checkSrcColumns_warn_mismatch (toColMap dst) (toColMap src) _ p hp
      hhas hmis
  · intro hall
    rw [validateSchemaCompatibility_isCompatible_none]
    rw [List.all_eq_true]
    intro p hp
    obtain ⟨c, hc, hceq⟩ := List.any_eq_true.mp (toColMap_key_of_mem src p hp)
    have heq : c.COLUMN_NAME = p.1 := by simpa using hceq
    rw [toColMap_has, ← heq]
    exact hall c hc

/-- Witness for C1: a source column `name` absent from an empty
destination yields `isCompatible = false` with the naming ERROR. -/
theorem claim_C1_schema_validation_witness :
    (validateSchemaCompatibility
        [⟨"name", "varchar", "YES", "", ""⟩] [] none).isCompatible = false ∧
    missingColMsg "name" ∈
      (validateSchemaCompatibility
        [⟨"name", "varchar", "YES", "", ""⟩] [] none).errors :=
  (claim_C1_schema_validation [⟨"name", "varchar", "YES", "", ""⟩] [] none).2.1
    ⟨"name", "varchar", "YES", "", ""⟩ (by simp)
    (by intro d hd; exact absurd hd (List.not_mem_nil d))

/-- Claim C10: the orchestrated schema gate is
`validateSchemaCompatibility` with no primary-key argument; the probed
source metadata marks every column nullable with no key role; and on
this path every ERROR entry is a missing-column error, so the
destination primary-key ERROR rules can never fire. -/
theorem claim_C10_gate_only_missing_errors :
    (∀ (meta : List QueryColMeta), ∀ c ∈ getQueryColumnMetadata meta,
      c.IS_NULLABLE = "YES" ∧ c.COLUMN_KEY = "") ∧
    (∀ src dst : List Col,
      runSchemaGate src dst = validateSchemaCompatibility src dst none) ∧
    (∀ src dst : List Col, ∀ e ∈ (runSchemaGate src dst).errors,
      ∃ n, e = missingColMsg n ∧ mapHas (toColMap dst) n = false ∧
        mapHas (toColMap src) n = true) := by
  refine ⟨?_, fun _ _ => rfl, ?_⟩
  · intro meta c hc
    obtain ⟨m, _, hm⟩ := List.mem_map.mp hc
    rw [← hm]
    exact ⟨rfl, rfl⟩
  · intro src dst e he
    rw [runSchemaGate, validateSchemaCompatibility_errors_none] at he
    obtain ⟨p, hp, hpe⟩ := List.mem_map.mp he
    have hpf := List.mem_filter.mp hp
    refine ⟨p.1, hpe.symm, ?_, mapHas_toColMap_of_mem src p hpf.1⟩
    have := hpf.2
    simpa using this

/-- Witness for C10: probing a two-column query yields all-nullable
keyless metadata, and the gate on it produces a missing-column error
only. -/
theorem claim_C10_gate_only_missing_errors_witness :
    ((⟨"id", mapMariaDBType 3, "YES", "", ""⟩ : Col).IS_NULLABLE = "YES" ∧
      (⟨"id", mapMariaDBType 3, "YES", "", ""⟩ : Col).COLUMN_KEY = "") ∧
    (∃ n, missingColMsg "id" = missingColMsg n ∧
      mapHas (toColMap []) n = false ∧
      mapHas (toColMap [⟨"id", "int", "YES", "", ""⟩]) n = true) :=
  ⟨claim_C10_gate_only_missing_errors.1 [⟨"id", 3⟩]
      ⟨"id", mapMariaDBType 3, "YES", "", ""⟩ (by simp [getQueryColumnMetadata]),
    claim_C10_gate_only_missing_errors.2.2 [⟨"id", "int", "YES", "", ""⟩] []
      (missingColMsg "id") (by decide)⟩

/-- Claim C2: `detectMode` is the rank-ordered deterministic decision:
empty destination gives full; otherwise a deleted-flag column with a
flagged row gives delta; otherwise a discoverable primary key gives
incremental with the configured key preferred when discovered, else the
first discovered key; otherwise full. It is a pure function of the
observations. -/
theorem claim_C2_mode_determinism (configuredPk : String) (obs : ModeObs) :
    (obs.destRowCount = 0 → detectMode configuredPk obs = ⟨"full", none⟩) ∧
    (0 < obs.destRowCount → obs.hasDeletedFlag = true →
      0 < obs.deletedCount →
      detectMode configuredPk obs =
        ⟨"delta", some (pickPkColumn configuredPk obs.primaryKeyColumns)⟩) ∧
    (0 < obs.destRowCount →
      (obs.hasDeletedFlag = false ∨ obs.deletedCount = 0) →
      obs.primaryKeyColumns ≠ [] →
      detectMode configuredPk obs =
        ⟨"incremental",
          some (pickPkColumn configuredPk obs.primaryKeyColumns)⟩ ∧
      (configuredPk ∈ obs.primaryKeyColumns →
        pickPkColumn configuredPk obs.primaryKeyColumns = configuredPk) ∧
      (configuredPk ∉ obs.primaryKeyColumns →
        pickPkColumn configuredPk obs.primaryKeyColumns =
          obs.primaryKeyColumns.headD configuredPk)) ∧
    (0 < obs.destRowCount →
      (obs.hasDeletedFlag = false ∨ obs.deletedCount = 0) →
      obs.primaryKeyColumns = [] →
      detectMode configuredPk obs = ⟨"full", none⟩) := by
  refine ⟨?_, ?_, ?_, ?_⟩
  · intro h
    simp [detectMode, h]
  · intro h0 hflag hdel
    have : (obs.destRowCount == 0) = false := by
      simp only [beq_eq_false_iff_ne, ne_eq]
      omega
    simp [detectMode, this, hflag, hdel]
  · intro h0 hnodelta hne
    have hb : (obs.destRowCount == 0) = false := by
      simp only [beq_eq_false_iff_ne, ne_eq]
      omega
    have hd : (obs.hasDeletedFlag && decide (0 < obs.deletedCount)) = false := by
      rcases hnodelta with h | h
      · simp [h]
      · simp [h]
    refine ⟨?_, ?_, ?_⟩
    · have hne2 : obs.primaryKeyColumns.isEmpty = false := by
        simpa [List.isEmpty_iff] using hne
      simp [detectMode, hb, hd, hne2]
    · intro hmem
      have hne2 : obs.primaryKeyColumns.isEmpty = false := by
        simpa [List.isEmpty_iff] using hne
      have hc : obs.primaryKeyColumns.contains configuredPk = true := by
        simpa using hmem
      simp only [pickPkColumn, hne2, Bool.false_eq_true, if_false, hc, if_true]
    · intro hmem
      have hne2 : obs.primaryKeyColumns.isEmpty = false := by
        simpa [List.isEmpty_iff] using hne
      have hc : obs.primaryKeyColumns.contains configuredPk = false := by
        simpa using hmem
      simp only [pickPkColumn, hne2, Bool.false_eq_true, if_false, hc]
  · intro h0 hnodelta hnil
    have hb : (obs.destRowCount == 0) = false := by
      simp only [beq_eq_false_iff_ne, ne_eq]
      omega
    have hd : (obs.hasDeletedFlag && decide (0 < obs.deletedCount)) = false := by
      rcases hnodelta with h | h
      · simp [h]
      · simp [h]
    simp [detectMode, hb, hd, hnil]

/-- Witness for C2: a nonempty destination with no delta condition and
discovered keys not containing the configured name selects incremental
on the first discovered key. -/
theorem claim_C2_mode_determinism_witness :
    detectMode "id" ⟨7, false, 0, ["k1", "k2"]⟩ =
      ⟨"incremental", some (pickPkColumn "id" ["k1", "k2"])⟩ :=
  ((claim_C2_mode_determinism "id" ⟨7, false, 0, ["k1", "k2"]⟩).2.2.1
    (by decide) (Or.inl rfl) (by decide)).1

/-- The concrete stale state used to refute claim C3: a completed
full-mode checkpoint and one unprocessed tombstone for the pair. -/
def c3Store : StateStore :=
  ⟨[⟨"src_t", "dst_t", "full", "completed"⟩], [],
    [⟨"src_t", "dst_t", "7", false⟩]⟩

/-- Counterexample to claim C3: with the destination empty and a stale
completed checkpoint present (no forced refresh), the claim demands a
full wipe of the pair state, but `checkFreshStartConditions` finds no
in-progress checkpoint, wipes nothing, and even a wipe would keep the
deletion tombstones. -/
theorem claim_C3_counterexample :
    ((checkFreshStartConditions false 0 c3Store "src_t" "dst_t").1 =
      c3Store) ∧
    (checkFreshStartConditions false 0 c3Store "src_t" "dst_t").2 = false ∧
    c3Store.checkpoints ≠ [] ∧
    (clearAllState c3Store "src_t" "dst_t").deletedRecords ≠ [] := by
  refine ⟨?_, ?_, ?_, ?_⟩ <;> decide

/-- Claim C3 (amended): state for the pair is wiped before mode
detection exactly when the forced-refresh flag is set, or the
destination is empty while an in-progress full-mode checkpoint exists;
the wipe removes the checkpoints and incremental watermarks of the
pair but leaves the deletion tombstones untouched. -/
theorem claim_C3_fresh_start_amended (force : Bool) (destRows : Nat)
    (st : StateStore) (s d : String)
    (h : force = true ∨
      (destRows = 0 ∧ (getCheckpoint st s d "full").isSome = true)) :
    (checkFreshStartConditions force destRows st s d).2 = true ∧
    ((checkFreshStartConditions force destRows st s d).1).checkpoints =
      st.checkpoints.filter
        (fun r => !(r.sourceTable == s && r.destinationTable == d)) ∧
    ((checkFreshStartConditions force destRows st s d).1).incrementalState =
      st.incrementalState.filter
        (fun r => !(r.sourceTable == s && r.destinationTable == d)) ∧
    ((checkFreshStartConditions force destRows st s d).1).deletedRecords =
      st.deletedRecords := by
  rcases h with h | ⟨h0, hcp⟩
  · subst h
    exact ⟨rfl, rfl, rfl, rfl⟩
  · subst h0
    unfold checkFreshStartConditions
    rcases hf : force with _ | _
    · simp [hcp, clearAllState, clearIncrementalState, clearAllCheckpoints]
    · exact ⟨rfl, rfl, rfl, rfl⟩

/-- Witness for the amended C3: forcing a refresh on the concrete stale
state wipes the pair checkpoints and watermarks and keeps the
tombstone. -/
theorem claim_C3_fresh_start_amended_witness :
    (checkFreshStartConditions true 5 c3Store "src_t" "dst_t").2 = true ∧
    ((checkFreshStartConditions true 5 c3Store "src_t" "dst_t").1).checkpoints
      = c3Store.checkpoints.filter
        (fun r => !(r.sourceTable == "src_t" &&
          r.destinationTable == "dst_t")) ∧
    ((checkFreshStartConditions true 5 c3Store "src_t"
        "dst_t").1).incrementalState
      = c3Store.incrementalState.filter
        (fun r => !(r.sourceTable == "src_t" &&
          r.destinationTable == "dst_t")) ∧
    ((checkFreshStartConditions true 5 c3Store "src_t"
        "dst_t").1).deletedRecords = c3Store.deletedRecords :=
  claim_C3_fresh_start_amended true 5 c3Store "src_t" "dst_t" (Or.inl rfl)

/-! ## Lemmas about the retrying query paths -/

lemma queryRetryGo_stop (f : Nat → QueryOutcome) (d M a : Nat) (e : DBErr)
    (hf : f a = QueryOutcome.err e)
    (h : ¬(isRetryableError e = true ∧ a < M)) :
    queryRetryGo f d M a = ⟨some e, a, []⟩ := by
  rw [queryRetryGo, hf]
  simp [h]

lemma queryRetryGo_ok (f : Nat → QueryOutcome) (d M a : Nat)
    (hf : f a = QueryOutcome.ok) :
    queryRetryGo f d M a = ⟨none, a, []⟩ := by
  rw [queryRetryGo, hf]

lemma queryRetryGo_retry (f : Nat → QueryOutcome) (d M a : Nat) (e : DBErr)
    (hf : f a = QueryOutcome.err e)
    (h : isRetryableError e = true ∧ a < M) :
    queryRetryGo f d M a =
      ⟨(queryRetryGo f d M (a + 1)).result,
        (queryRetryGo f d M (a + 1)).attemptsMade,
        d * a :: (queryRetryGo f d M (a + 1)).delays⟩ := by
  rw [queryRetryGo, hf]
  simp [h]

lemma queryRetryGo_bounds (f : Nat → QueryOutcome) (d M : Nat) :
    ∀ (n a : Nat), M + 1 - a ≤ n → a ≤ M →
      a ≤ (queryRetryGo f d M a).attemptsMade ∧
        (queryRetryGo f d M a).attemptsMade ≤ M := by
  intro n
  induction n with
  | zero => intro a hn ha; omega
  | succ n ih =>
    intro a hn ha
    cases hf : f a with
    | ok => rw [queryRetryGo_ok f d M a hf]; exact ⟨le_refl a, ha⟩
    | err e =>
      by_cases h : isRetryableError e = true ∧ a < M
      · rw [queryRetryGo_retry f d M a e hf h]
        dsimp only
        have := ih (a + 1) (by omega) (by omega)
        exact ⟨by omega, this.2⟩
      · rw [queryRetryGo_stop f d M a e hf h]
        exact ⟨le_refl a, ha⟩

lemma queryRetryGo_retried (f : Nat → QueryOutcome) (d M : Nat) :
    ∀ (n a : Nat), M + 1 - a ≤ n →
      ∀ k, a ≤ k → k < (queryRetryGo f d M a).attemptsMade →
        ∃ e, f k = QueryOutcome.err e ∧ isRetryableError e = true := by
  intro n
  induction n with
  | zero =>
    intro a hn k hak hk
    have hb : (queryRetryGo f d M a).attemptsMade ≤ a := by
      cases hf : f a with
      | ok =>
        rw [queryRetryGo_ok f d M a hf]
      | err e =>
        by_cases h : isRetryableError e = true ∧ a < M
        · exact absurd h.2 (by omega)
        · rw [queryRetryGo_stop f d M a e hf h]
    omega
  | succ n ih =>
    intro a hn k hak hk
    cases hf : f a with
    | ok =>
      rw [queryRetryGo_ok f d M a hf] at hk
      have hk2 : k < a := hk
      omega
    | err e =>
      by_cases h : isRetryableError e = true ∧ a < M
      · rcases Nat.eq_or_lt_of_le hak with heq | hlt
        · exact ⟨e, heq ▸ hf, h.1⟩
        · rw [queryRetryGo_retry f d M a e hf h] at hk
          exact ih (a + 1) (by omega) k hlt hk
      · rw [queryRetryGo_stop f d M a e hf h] at hk
        have hk2 : k < a := hk
        omega

lemma queryRetryGo_delays (f : Nat → QueryOutcome) (d M : Nat) :
    ∀ (n a : Nat), M + 1 - a ≤ n →
      (queryRetryGo f d M a).delays =
        (List.range' a ((queryRetryGo f d M a).attemptsMade - a)).map
          fun i => d * i := by
  intro n
  induction n with
  | zero =>
    intro a hn
    cases hf : f a with
    | ok => rw [queryRetryGo_ok f d M a hf]; simp
    | err e =>
      by_cases h : isRetryableError e = true ∧ a < M
      · omega
      · rw [queryRetryGo_stop f d M a e hf h]; simp
  | succ n ih =>
    intro a hn
    cases hf : f a with
    | ok => rw [queryRetryGo_ok f d M a hf]; simp
    | err e =>
      by_cases h : isRetryableError e = true ∧ a < M
      · rw [queryRetryGo_retry f d M a e hf h]
        have hb := queryRetryGo_bounds f d M (n) (a + 1) (by omega) (by omega)
        have hcnt : (queryRetryGo f d M (a + 1)).attemptsMade - a =
            ((queryRetryGo f d M (a + 1)).attemptsMade - (a + 1)) + 1 := by
          omega
        rw [ih (a + 1) (by omega), hcnt, List.range'_succ]
        simp
      · rw [queryRetryGo_stop f d M a e hf h]; simp

/-- Claim C4: the retrying query path re-attempts only classified
transient errors, makes at most the configured maximum number of
attempts (defaulting to 3), sleeps `retryDelay * attemptNumber` between
attempts, and propagates a non-transient error immediately on the first
attempt with no retry and no delay. -/
theorem claim_C4_retry_policy (f : Nat → QueryOutcome) (d M : Nat)
    (hM : 1 ≤ M) :
    (queryWithRetry f d M).attemptsMade ≤ M ∧
    (∀ k, 1 ≤ k → k < (queryWithRetry f d M).attemptsMade →
      ∃ e, f k = QueryOutcome.err e ∧ isRetryableError e = true) ∧
    (queryWithRetry f d M).delays =
      (List.range' 1 ((queryWithRetry f d M).attemptsMade - 1)).map
        (fun i => d * i) ∧
    (∀ e, f 1 = QueryOutcome.err e → isRetryableError e = false →
      queryWithRetry f d M = ⟨some e, 1, []⟩) ∧
    poolMaxRetries none = 3 := by
  refine ⟨?_, ?_, ?_, ?_, rfl⟩
  · exact (queryRetryGo_bounds f d M (M + 1) 1 (by omega) hM).2
  · intro k hk1 hk2
    exact queryRetryGo_retried f d M (M + 1) 1 (by omega) k hk1 hk2
  · exact queryRetryGo_delays f d M (M + 1) 1 (by omega)
  · intro e hf hne
    unfold queryWithRetry
    exact queryRetryGo_stop f d M 1 e hf (by simp [hne])

/-- Witness for C4: with the default 3 attempts, a permanent duplicate
key error on the first attempt propagates immediately. -/
theorem claim_C4_retry_policy_witness :
    queryWithRetry (fun _ => QueryOutcome.err ⟨"ER_DUP_ENTRY", "dup"⟩)
        100 (poolMaxRetries none) =
      ⟨some ⟨"ER_DUP_ENTRY", "dup"⟩, 1, []⟩ :=
  (claim_C4_retry_policy
      (fun _ => QueryOutcome.err ⟨"ER_DUP_ENTRY", "dup"⟩) 100
      (poolMaxRetries none) (by decide)).2.2.2.1
    ⟨"ER_DUP_ENTRY", "dup"⟩ rfl (by decide)

/-! ## Lemmas about sorted keyset pagination -/

lemma sorted_le_getLast :
    ∀ (l : List Nat), l.Sorted (· < ·) → ∀ b, l.getLast? = some b →
      ∀ x ∈ l, x ≤ b := by
  intro l
  induction l with
  | nil => intro _ b hb; cases hb
  | cons a t ih =>
    intro hs b hb x hx
    rcases List.sorted_cons.mp hs with ⟨ha, ht⟩
    cases t with
    | nil =>
      simp only [List.getLast?_singleton, Option.some.injEq] at hb
      rcases List.mem_singleton.mp hx with rfl
      omega
    | cons c t2 =>
      rw [List.getLast?_cons_cons] at hb
      have hbmem : b ∈ c :: t2 := List.mem_of_mem_getLast? hb
      rcases List.mem_cons.mp hx with rfl | hx2
      · exact le_of_lt (ha b hbmem)
      · exact ih ht b hb x hx2

lemma sorted_filter_gt_getLast_take :
    ∀ (l : List Nat), l.Sorted (· < ·) → ∀ (B : Nat) (b : Nat),
      (l.take B).getLast? = some b →
      l.filter (fun x => decide (b < x)) = l.drop B := by
  intro l
  induction l with
  | nil => intro _ B b hb; simp at hb
  | cons x xs ih =>
    intro hs B b hb
    rcases List.sorted_cons.mp hs with ⟨hx, hxs⟩
    cases B with
    | zero => simp at hb
    | succ B2 =>
      rw [List.take_succ_cons] at hb
      cases htb : xs.take B2 with
      | nil =>
        rw [htb, List.getLast?_singleton, Option.some.injEq] at hb
        subst hb
        rcases List.take_eq_nil_iff.mp htb with hB2 | hxsnil
        · subst hB2
          simp only [List.drop_succ_cons, List.drop_zero]
          rw [List.filter_cons]
          have hxx : decide (x < x) = false := by simp
          rw [hxx]
          simp only [Bool.false_eq_true, if_false]
          exact List.filter_eq_self.mpr fun y hy => by
            simpa using hx y hy
        · subst hxsnil
          simp
      | cons c t2 =>
        have hb2 : (xs.take B2).getLast? = some b := by
          rw [htb]
          rw [htb] at hb
          rwa [List.getLast?_cons_cons] at hb
        have hbmem : b ∈ xs :=
          List.mem_of_mem_take (List.mem_of_mem_getLast? hb2)
        have hxb : x < b := hx b hbmem
        rw [List.drop_succ_cons, List.filter_cons]
        have hcond : decide (b < x) = false := by
          simp only [decide_eq_false_iff_not]
          omega
        rw [hcond]
        simp only [Bool.false_eq_true, if_false]
        exact ih hxs B2 b hb2

lemma keysetRem_sorted (src : List Nat) (hsrc : src.Sorted (· < ·))
    (lastKey : Option Nat) : (keysetRem src lastKey).Sorted (· < ·) := by
  cases lastKey with
  | none => exact hsrc
  | some k => exact hsrc.sublist (List.filter_sublist src)

lemma keysetFetch_sorted (src : List Nat) (hsrc : src.Sorted (· < ·))
    (lastKey : Option Nat) (B : Nat) :
    (keysetFetch src lastKey B).Sorted (· < ·) :=
  (keysetRem_sorted src hsrc lastKey).sublist (List.take_sublist _ _)

lemma keysetFetch_subset_rem (src : List Nat) (lastKey : Option Nat)
    (B : Nat) : ∀ x ∈ keysetFetch src lastKey B, x ∈ keysetRem src lastKey :=
  fun _ hx => List.mem_of_mem_take hx

lemma keysetRem_gt (src : List Nat) (k : Nat) :
    ∀ x ∈ keysetRem src (some k), k < x := by
  intro x hx
  have := (List.mem_filter.mp hx).2
  simpa using this

lemma keysetRem_advance (src : List Nat) (hsrc : src.Sorted (· < ·))
    (lastKey : Option Nat) (B b : Nat)
    (hb : (keysetFetch src lastKey B).getLast? = some b) :
    keysetRem src (some b) = (keysetRem src lastKey).drop B := by
  have hrs : (keysetRem src lastKey).Sorted (· < ·) :=
    keysetRem_sorted src hsrc lastKey
  have hfilter : (keysetRem src lastKey).filter (fun x => decide (b < x)) =
      (keysetRem src lastKey).drop B :=
    sorted_filter_gt_getLast_take (keysetRem src lastKey) hrs B b hb
  rw [← hfilter]
  cases lastKey with
  | none => rfl
  | some k =>
    have hkb : k < b := by
      refine keysetRem_gt src k b ?_
      exact keysetFetch_subset_rem src (some k) B b (List.mem_of_mem_getLast? hb)
    show src.filter (fun x => decide (b < x)) =
      (src.filter fun x => decide (k < x)).filter fun x => decide (b < x)
    rw [List.filter_filter]
    refine (List.filter_congr ?_).symm
    intro x _
    by_cases hbx : b < x
    · have : k < x := by omega
      simp [hbx, this]
    · simp [hbx]

lemma mem_keysetFetch_of_le (src : List Nat) (hsrc : src.Sorted (· < ·))
    (lastKey : Option Nat) (B b x : Nat)
    (hb : (keysetFetch src lastKey B).getLast? = some b)
    (hx : x ∈ keysetRem src lastKey) (hxb : x ≤ b) :
    x ∈ keysetFetch src lastKey B := by
  have hrs : (keysetRem src lastKey).Sorted (· < ·) :=
    keysetRem_sorted src hsrc lastKey
  have hfilter : (keysetRem src lastKey).filter (fun x => decide (b < x)) =
      (keysetRem src lastKey).drop B :=
    sorted_filter_gt_getLast_take (keysetRem src lastKey) hrs B b hb
  have hsplit : x ∈ (keysetRem src lastKey).take B ∨
      x ∈ (keysetRem src lastKey).drop B := by
    rw [← List.mem_append, List.take_append_drop]
    exact hx
  rcases hsplit with h | h
  · exact h
  · exfalso
    rw [← hfilter] at h
    have := (List.mem_filter.mp h).2
    simp only [decide_eq_true_eq] at this
    omega

lemma keysetFetch_max (src : List Nat) (hsrc : src.Sorted (· < ·))
    (lastKey : Option Nat) (B b : Nat)
    (hb : (keysetFetch src lastKey B).getLast? = some b) :
    ∀ x ∈ keysetFetch src lastKey B, x ≤ b :=
  sorted_le_getLast _ (keysetFetch_sorted src hsrc lastKey B) b hb

lemma ceil_div_step (len B : Nat) (h : 0 < len) (hB : 0 < B) :
    (len + B - 1) / B = ((len - B) + B - 1) / B + 1 := by
  by_cases hlen : len ≤ B
  · have h1 : len - B = 0 := by omega
    rw [h1]
    have h2 : (0 + B - 1) / B = 0 := Nat.div_eq_of_lt (by omega)
    rw [h2]
    exact Nat.div_eq_of_lt_le (by omega) (by omega)
  · have h3 : len + B - 1 = ((len - B) + B - 1) + B := by omega
    rw [h3, Nat.add_div_right _ hB]

/-! ## Lemmas about the batch loops -/

lemma processBatchTx_ok (rowOk : Nat → Bool) (dest batch : List Nat) :
    processBatchTx true true rowOk dest batch =
      ⟨dest ++ batch.filter rowOk, true,
        some (batch.length, (batch.filter rowOk).length)⟩ := rfl

lemma processBatchTx_fail (beginOk commitOk : Bool) (rowOk : Nat → Bool)
    (dest batch : List Nat) (h : beginOk = false ∨ commitOk = false) :
    processBatchTx beginOk commitOk rowOk dest batch = ⟨dest, true, none⟩ := by
  rcases h with h | h
  · subst h; rfl
  · subst h
    cases beginOk with
    | false => rfl
    | true => rfl

lemma stepBatch_fail (hasPk : Bool) (rowOk : Nat → Bool)
    (beginOk commitOk : Bool) (batch : List Nat) (st : RunState)
    (h : beginOk = false ∨ commitOk = false) :
    stepBatch hasPk rowOk beginOk commitOk batch st =
      { st with aborted := true } := by
  unfold stepBatch
  rw [processBatchTx_fail beginOk commitOk rowOk st.dest batch h]

lemma stepBatch_ok_pk (rowOk : Nat → Bool) (batch : List Nat)
    (st : RunState) :
    stepBatch true rowOk true true batch st =
      { dest := st.dest ++ batch.filter rowOk,
        cp := some ⟨(batch.getLast?).getD 0, st.batchNumber,
          st.rowsProcessed + batch.length,
          st.rowsInserted + (batch.filter rowOk).length, "in_progress"⟩,
        lastKey := some ((batch.getLast?).getD 0),
        batchNumber := st.batchNumber + 1,
        rowsProcessed := st.rowsProcessed + batch.length,
        rowsInserted := st.rowsInserted + (batch.filter rowOk).length,
        saves := st.saves ++ [(batch, (batch.getLast?).getD 0)],
        snaps := st.snaps ++ [⟨st.dest ++ batch.filter rowOk, st.cp⟩] ++
          [⟨st.dest ++ batch.filter rowOk,
            some ⟨(batch.getLast?).getD 0, st.batchNumber,
              st.rowsProcessed + batch.length,
              st.rowsInserted + (batch.filter rowOk).length,
              "in_progress"⟩⟩],
        aborted := st.aborted } := rfl

lemma stepBatch_ok_nopk (rowOk : Nat → Bool) (batch : List Nat)
    (st : RunState) :
    stepBatch false rowOk true true batch st =
      { st with
        dest := st.dest ++ batch.filter rowOk,
        rowsProcessed := st.rowsProcessed + batch.length,
        rowsInserted := st.rowsInserted + (batch.filter rowOk).length,
        batchNumber := st.batchNumber + 1,
        snaps := st.snaps ++ [⟨st.dest ++ batch.filter rowOk, st.cp⟩] } := rfl

lemma filter_take_drop (rowOk : Nat → Bool) (l : List Nat) (B : Nat) :
    (l.take B).filter rowOk ++ (l.drop B).filter rowOk = l.filter rowOk := by
  rw [← List.filter_append, List.take_append_drop]

lemma fullLoadGo_keyset_ok (src : List Nat) (B : Nat) (rowOk : Nat → Bool)
    (bOk cOk : Nat → Bool) (hsrc : src.Sorted (· < ·)) (hB : 0 < B)
    (hbOk : ∀ n, bOk n = true) (hcOk : ∀ n, cOk n = true) :
    ∀ (fuel : Nat) (st : RunState), st.aborted = false →
      (keysetRem src st.lastKey).length < fuel →
      (fullLoadGo true src B rowOk bOk cOk fuel st).dest =
          st.dest ++ (keysetRem src st.lastKey).filter rowOk ∧
      (fullLoadGo true src B rowOk bOk cOk fuel st).rowsProcessed =
          st.rowsProcessed + (keysetRem src st.lastKey).length ∧
      (fullLoadGo true src B rowOk bOk cOk fuel st).rowsInserted =
          st.rowsInserted + ((keysetRem src st.lastKey).filter rowOk).length ∧
      (fullLoadGo true src B rowOk bOk cOk fuel st).batchNumber =
          st.batchNumber + ((keysetRem src st.lastKey).length + B - 1) / B ∧
      (fullLoadGo true src B rowOk bOk cOk fuel st).saves.length =
          st.saves.length + ((keysetRem src st.lastKey).length + B - 1) / B ∧
      (fullLoadGo true src B rowOk bOk cOk fuel st).aborted = false ∧
      keysetRem src (fullLoadGo true src B rowOk bOk cOk fuel st).lastKey
          = [] ∧
      (∀ c, (fullLoadGo true src B rowOk bOk cOk fuel st).cp = some c →
        c.status = "completed") ∧
      (∀ p ∈ (fullLoadGo true src B rowOk bOk cOk fuel st).saves,
        p ∈ st.saves ∨ p.1 ≠ []) := by
  intro fuel
  induction fuel with
  | zero => intro st hab hlen; omega
  | succ fuel ih =>
    intro st hab hlen
    by_cases hrem : keysetRem src st.lastKey = []
    · have hbatch : fetchBatch true src st.lastKey st.batchNumber B = [] := by
        unfold fetchBatch keysetFetch
        rw [if_pos rfl, hrem, List.take_nil]
      rw [fullLoadGo]
      rw [hbatch]
      simp only [List.isEmpty_nil, if_true]
      unfold completeCp
      have h0 : (B - 1) / B = 0 := Nat.div_eq_of_lt (by omega)
      refine ⟨by simp [hrem], by simp [hrem], by simp [hrem],
        by simp [hrem, h0], by simp [hrem, h0], hab, hrem, ?_,
        fun p hp => Or.inl hp⟩
      intro c hc
      cases hcp : st.cp with
      | none =>
        rw [hcp] at hc
        simp at hc
      | some c0 =>
        rw [hcp] at hc
        have hc2 : ({ c0 with status := "completed" } : Checkpoint) = c := by
          simpa using hc
        rw [← hc2]
    · have hbne : keysetFetch src st.lastKey B ≠ [] := by
        unfold keysetFetch
        rw [ne_eq, List.take_eq_nil_iff]
        push_neg
        exact ⟨by omega, hrem⟩
      have hbatch : fetchBatch true src st.lastKey st.batchNumber B =
          keysetFetch src st.lastKey B := by
        unfold fetchBatch
        rw [if_pos rfl]
      obtain ⟨b, hb⟩ : ∃ b, (keysetFetch src st.lastKey B).getLast? = some b := by
        cases hgl : (keysetFetch src st.lastKey B).getLast? with
        | none => exact absurd (List.getLast?_eq_none_iff.mp hgl) hbne
        | some b => exact ⟨b, rfl⟩
      have hpk : ((keysetFetch src st.lastKey B).getLast?).getD 0 = b := by
        rw [hb]; rfl
      rw [fullLoadGo, hbatch]
      have hbe : (keysetFetch src st.lastKey B).isEmpty = false :=
        List.isEmpty_eq_false.mpr hbne
      rw [hbe]
      simp only [Bool.false_eq_true, if_false]
      rw [hbOk st.batchNumber, hcOk st.batchNumber]
      rw [stepBatch_ok_pk rowOk (keysetFetch src st.lastKey B) st]
      set st1 : RunState :=
        { dest := st.dest ++ (keysetFetch src st.lastKey B).filter rowOk,
          cp := some ⟨((keysetFetch src st.lastKey B).getLast?).getD 0,
            st.batchNumber,
            st.rowsProcessed + (keysetFetch src st.lastKey B).length,
            st.rowsInserted +
              ((keysetFetch src st.lastKey B).filter rowOk).length,
            "in_progress"⟩,
          lastKey := some (((keysetFetch src st.lastKey B).getLast?).getD 0),
          batchNumber := st.batchNumber + 1,
          rowsProcessed :=
            st.rowsProcessed + (keysetFetch src st.lastKey B).length,
          rowsInserted := st.rowsInserted +
            ((keysetFetch src st.lastKey B).filter rowOk).length,
          saves := st.saves ++
            [(keysetFetch src st.lastKey B,
              ((keysetFetch src st.lastKey B).getLast?).getD 0)],
          snaps := st.snaps ++
            [⟨st.dest ++ (keysetFetch src st.lastKey B).filter rowOk,
              st.cp⟩] ++
            [⟨st.dest ++ (keysetFetch src st.lastKey B).filter rowOk,
              some ⟨((keysetFetch src st.lastKey B).getLast?).getD 0,
                st.batchNumber,
                st.rowsProcessed + (keysetFetch src st.lastKey B).length,
                st.rowsInserted +
                  ((keysetFetch src st.lastKey B).filter rowOk).length,
                "in_progress"⟩⟩],
          aborted := st.aborted } with hst1
      have hab1 : st1.aborted = false := hab
      rw [if_neg (by rw [hab1]; exact Bool.false_ne_true)]
      have hlk1 : st1.lastKey = some b := by rw [hst1, hpk]
      have hrem1 : keysetRem src st1.lastKey =
          (keysetRem src st.lastKey).drop B := by
        rw [hlk1]
        exact keysetRem_advance src hsrc st.lastKey B b hb
      have hlen1 : (keysetRem src st1.lastKey).length < fuel := by
        rw [hrem1, List.length_drop]
        have h0 : keysetRem src st.lastKey ≠ [] := hrem
        have h1 : 0 < (keysetRem src st.lastKey).length :=
          List.length_pos.mpr h0
        omega
      obtain ⟨ihdest, ihrp, ihri, ihbn, ihsl, ihab, ihrem, ihcp, ihsaves⟩ :=
        ih st1 hab1 hlen1
      have hlenb : (keysetFetch src st.lastKey B).length =
          min B (keysetRem src st.lastKey).length := by
        unfold keysetFetch
        exact List.length_take _ _
      have hfilterlen : ((keysetFetch src st.lastKey B).filter rowOk).length +
          (((keysetRem src st.lastKey).drop B).filter rowOk).length =
          ((keysetRem src st.lastKey).filter rowOk).length := by
        rw [← List.length_append]
        show (((keysetRem src st.lastKey).take B).filter rowOk ++
          ((keysetRem src st.lastKey).drop B).filter rowOk).length = _
        rw [filter_take_drop]
      have hpos : 0 < (keysetRem src st.lastKey).length :=
        List.length_pos.mpr hrem
      have hceil : ((keysetRem src st.lastKey).length + B - 1) / B =
          (((keysetRem src st.lastKey).length - B) + B - 1) / B + 1 :=
        ceil_div_step _ B hpos hB
      refine ⟨?_, ?_, ?_, ?_, ?_, ihab, ihrem, ihcp, ?_⟩
      · rw [ihdest, hrem1]
        show st.dest ++ ((keysetRem src st.lastKey).take B).filter rowOk ++
            ((keysetRem src st.lastKey).drop B).filter rowOk =
          st.dest ++ (keysetRem src st.lastKey).filter rowOk
        rw [List.append_assoc, filter_take_drop]
      · rw [ihrp, hrem1, List.length_drop]
        show st.rowsProcessed + (keysetFetch src st.lastKey B).length +
            ((keysetRem src st.lastKey).length - B) =
          st.rowsProcessed + (keysetRem src st.lastKey).length
        rw [hlenb]
        omega
      · rw [ihri, hrem1]
        show st.rowsInserted +
            ((keysetFetch src st.lastKey B).filter rowOk).length +
            (((keysetRem src st.lastKey).drop B).filter rowOk).length =
          st.rowsInserted + ((keysetRem src st.lastKey).filter rowOk).length
        omega
      · rw [ihbn, hrem1, List.length_drop, hceil]
        show st.batchNumber + 1 +
            ((keysetRem src st.lastKey).length - B + B - 1) / B =
          st.batchNumber +
            ((keysetRem src st.lastKey).length - B + B - 1) / B + 1
        omega
      · rw [ihsl, hrem1, List.length_drop, hceil]
        show (st.saves ++ [(keysetFetch src st.lastKey B,
            ((keysetFetch src st.lastKey B).getLast?).getD 0)]).length +
            ((keysetRem src st.lastKey).length - B + B - 1) / B =
          st.saves.length +
            ((keysetRem src st.lastKey).length - B + B - 1) / B + 1
        rw [List.length_append]
        simp only [List.length_cons, List.length_nil]
        omega
      · intro p hp
        rcases ihsaves p hp with hin | hne2
        · have hin2 : p ∈ st.saves ++ [(keysetFetch src st.lastKey B,
              ((keysetFetch src st.lastKey B).getLast?).getD 0)] := hin
          rcases List.mem_append.mp hin2 with h1 | h2
          · exact Or.inl h1
          · refine Or.inr ?_
            have hpe : p = (keysetFetch src st.lastKey B,
                ((keysetFetch src st.lastKey B).getLast?).getD 0) := by
              simpa using h2
            rw [hpe]
            exact hbne
        · exact Or.inr hne2

lemma fullLoadGo_offset_ok (src : List Nat) (B : Nat) (rowOk : Nat → Bool)
    (bOk cOk : Nat → Bool) (hB : 0 < B)
    (hbOk : ∀ n, bOk n = true) (hcOk : ∀ n, cOk n = true) :
    ∀ (fuel : Nat) (st : RunState), st.aborted = false →
      1 ≤ st.batchNumber →
      (src.drop ((st.batchNumber - 1) * B)).length < fuel →
      (fullLoadGo false src B rowOk bOk cOk fuel st).dest =
          st.dest ++ (src.drop ((st.batchNumber - 1) * B)).filter rowOk ∧
      (fullLoadGo false src B rowOk bOk cOk fuel st).rowsProcessed =
          st.rowsProcessed + (src.drop ((st.batchNumber - 1) * B)).length ∧
      (fullLoadGo false src B rowOk bOk cOk fuel st).rowsInserted =
          st.rowsInserted +
            ((src.drop ((st.batchNumber - 1) * B)).filter rowOk).length ∧
      (fullLoadGo false src B rowOk bOk cOk fuel st).batchNumber =
          st.batchNumber +
            ((src.drop ((st.batchNumber - 1) * B)).length + B - 1) / B ∧
      (fullLoadGo false src B rowOk bOk cOk fuel st).aborted = false ∧
      (fullLoadGo false src B rowOk bOk cOk fuel st).saves = st.saves ∧
      src.drop
          (((fullLoadGo false src B rowOk bOk cOk fuel st).batchNumber - 1)
            * B) = [] := by
  intro fuel
  induction fuel with
  | zero => intro st hab hbn hlen; omega
  | succ fuel ih =>
    intro st hab hbn hlen
    set rem := src.drop ((st.batchNumber - 1) * B) with hremdef
    have hfetch : fetchBatch false src st.lastKey st.batchNumber B =
        rem.take B := by
      unfold fetchBatch
      rw [if_neg (by simp)]
    by_cases hrem : rem = []
    · have hbe : (fetchBatch false src st.lastKey st.batchNumber B).isEmpty
          = true := by
        rw [hfetch, hrem]
        simp
      rw [fullLoadGo, hbe]
      simp only [if_true, Bool.false_eq_true, if_false]
      simp only [← hremdef]
      have h0 : (B - 1) / B = 0 := Nat.div_eq_of_lt (by omega)
      have hlen0 : rem.length = 0 := by rw [hrem]; rfl
      refine ⟨?_, ?_, ?_, ?_, ?_, ?_, ?_⟩
      · rw [hrem]
        simp
      · rw [hlen0]
        omega
      · rw [hrem]
        simp
      · rw [hlen0]
        simp [h0]
      · exact hab
      · trivial
      · exact hrem
    · have hbne : rem.take B ≠ [] := by
        rw [ne_eq, List.take_eq_nil_iff]
        push_neg
        exact ⟨by omega, hrem⟩
      rw [fullLoadGo, hfetch]
      rw [List.isEmpty_eq_false.mpr hbne]
      simp only [Bool.false_eq_true, if_false]
      rw [hbOk st.batchNumber, hcOk st.batchNumber]
      rw [stepBatch_ok_nopk rowOk (rem.take B) st]
      set st1 : RunState :=
        { st with
          dest := st.dest ++ (rem.take B).filter rowOk,
          rowsProcessed := st.rowsProcessed + (rem.take B).length,
          rowsInserted := st.rowsInserted + ((rem.take B).filter rowOk).length,
          batchNumber := st.batchNumber + 1,
          snaps := st.snaps ++
            [⟨st.dest ++ (rem.take B).filter rowOk, st.cp⟩] } with hst1
      have hab1 : st1.aborted = false := hab
      rw [if_neg (by simp [hab1, hab])]
      have hidx : ∀ bn : Nat, 1 ≤ bn →
          (bn + 1 - 1) * B = B + (bn - 1) * B := by
        intro bn hbn1
        rcases Nat.exists_eq_add_of_le hbn1 with ⟨n, hn⟩
        subst hn
        have e1 : 1 + n + 1 - 1 = 1 + n := by omega
        have e2 : 1 + n - 1 = n := by omega
        rw [e1, e2, Nat.add_mul, Nat.one_mul]
      have hrem1 : src.drop ((st1.batchNumber - 1) * B) = rem.drop B := by
        show src.drop ((st.batchNumber + 1 - 1) * B) = rem.drop B
        rw [hremdef, List.drop_drop, hidx st.batchNumber hbn, Nat.add_comm]
      have hlen1 : (src.drop ((st1.batchNumber - 1) * B)).length < fuel := by
        rw [hrem1, List.length_drop]
        have h1 : 0 < rem.length := List.length_pos.mpr hrem
        omega
      have hbn1 : 1 ≤ st1.batchNumber := by
        show 1 ≤ st.batchNumber + 1
        omega
      obtain ⟨ihdest, ihrp, ihri, ihbn, ihab, ihsaves, ihrem⟩ :=
        ih st1 hab1 hbn1 hlen1
      rw [hrem1] at ihdest ihrp ihri ihbn
      have hpos : 0 < rem.length := List.length_pos.mpr hrem
      have hceil : (rem.length + B - 1) / B =
          ((rem.length - B) + B - 1) / B + 1 := ceil_div_step _ B hpos hB
      have hlent : (rem.take B).length = min B rem.length :=
        List.length_take _ _
      have hfl : ((rem.take B).filter rowOk).length +
          ((rem.drop B).filter rowOk).length =
          (rem.filter rowOk).length := by
        rw [← List.length_append, filter_take_drop]
      refine ⟨?_, ?_, ?_, ?_, ihab, ihsaves, ihrem⟩
      · rw [ihdest]
        show st.dest ++ (rem.take B).filter rowOk ++
            (rem.drop B).filter rowOk = st.dest ++ rem.filter rowOk
        rw [List.append_assoc, filter_take_drop]
      · rw [ihrp, List.length_drop]
        show st.rowsProcessed + (rem.take B).length + (rem.length - B) =
          st.rowsProcessed + rem.length
        rw [hlent]
        omega
      · rw [ihri]
        show st.rowsInserted + ((rem.take B).filter rowOk).length +
            ((rem.drop B).filter rowOk).length =
          st.rowsInserted + (rem.filter rowOk).length
        omega
      · rw [ihbn, List.length_drop, hceil]
        show st.batchNumber + 1 + ((rem.length - B) + B - 1) / B =
          st.batchNumber + (((rem.length - B) + B - 1) / B + 1)
        omega

/-- Claim C8: for every batch size `B ≥ 1` and every source, with no
row-level insert error and no transaction failure, a full load from an
empty destination inserts exactly the `N` source rows, processes them in
`⌈N/B⌉` nonempty batches, and terminates when a fetched batch is empty —
in the keyed (keyset) mode, where the checkpoint also ends completed,
and in the offset-fallback mode alike. -/
theorem claim_C8_full_load_counts (src : List Nat) (B : Nat) (hB : 1 ≤ B)
    (hsrc : src.Sorted (· < ·)) :
    ((fullLoadExecute true src [] B (fun _ => true) (fun _ => true)
        (fun _ => true) none (src.length + 1)).dest = src ∧
      (fullLoadExecute true src [] B (fun _ => true) (fun _ => true)
        (fun _ => true) none (src.length + 1)).rowsInserted = src.length ∧
      (fullLoadExecute true src [] B (fun _ => true) (fun _ => true)
        (fun _ => true) none (src.length + 1)).rowsProcessed = src.length ∧
      (fullLoadExecute true src [] B (fun _ => true) (fun _ => true)
        (fun _ => true) none (src.length + 1)).saves.length =
          (src.length + B - 1) / B ∧
      (∀ p ∈ (fullLoadExecute true src [] B (fun _ => true) (fun _ => true)
        (fun _ => true) none (src.length + 1)).saves, p.1 ≠ []) ∧
      keysetRem src (fullLoadExecute true src [] B (fun _ => true)
        (fun _ => true) (fun _ => true) none (src.length + 1)).lastKey
          = [] ∧
      (∀ c, (fullLoadExecute true src [] B (fun _ => true) (fun _ => true)
        (fun _ => true) none (src.length + 1)).cp = some c →
          c.status = "completed")) ∧
    ((fullLoadExecute false src [] B (fun _ => true) (fun _ => true)
        (fun _ => true) none (src.length + 1)).dest = src ∧
      (fullLoadExecute false src [] B (fun _ => true) (fun _ => true)
        (fun _ => true) none (src.length + 1)).rowsInserted = src.length ∧
      (fullLoadExecute false src [] B (fun _ => true) (fun _ => true)
        (fun _ => true) none (src.length + 1)).batchNumber =
          1 + (src.length + B - 1) / B ∧
      src.drop (((fullLoadExecute false src [] B (fun _ => true)
        (fun _ => true) (fun _ => true) none
          (src.length + 1)).batchNumber - 1) * B) = []) := by
  constructor
  · have h := fullLoadGo_keyset_ok src B (fun _ => true) (fun _ => true)
      (fun _ => true) hsrc (by omega) (fun _ => rfl) (fun _ => rfl)
      (src.length + 1) (initState true [] none) rfl (by
        show (keysetRem src none).length < src.length + 1
        show src.length < src.length + 1
        omega)
    obtain ⟨hdest, hrp, hri, _, hsl, _, hremf, hcp, hsaves⟩ := h
    have hrem0 : keysetRem src (initState true [] none).lastKey = src := rfl
    rw [hrem0] at hdest hrp hri hsl
    unfold fullLoadExecute
    refine ⟨?_, ?_, ?_, ?_, ?_, hremf, hcp⟩
    · rw [hdest]
      show [] ++ src.filter (fun _ => true) = src
      simp
    · rw [hri]
      show 0 + (src.filter fun _ => true).length = src.length
      simp
    · rw [hrp]
      show 0 + src.length = src.length
      omega
    · rw [hsl]
      show ([] : List (List Nat × Nat)).length + (src.length + B - 1) / B =
        (src.length + B - 1) / B
      simp
    · intro p hp
      rcases hsaves p hp with h1 | h2
      · exact absurd h1 (List.not_mem_nil p)
      · exact h2
  · have h := fullLoadGo_offset_ok src B (fun _ => true) (fun _ => true)
      (fun _ => true) (by omega) (fun _ => rfl) (fun _ => rfl)
      (src.length + 1) (initState false [] none) rfl (by decide) (by
        show (src.drop ((1 - 1) * B)).length < src.length + 1
        simp)
    obtain ⟨hdest, _, hri, hbn, _, _, hremf⟩ := h
    have hd0 : src.drop (((initState false [] none).batchNumber - 1) * B) =
        src := by
      show src.drop ((1 - 1) * B) = src
      simp
    rw [hd0] at hdest hri hbn
    unfold fullLoadExecute
    refine ⟨?_, ?_, ?_, hremf⟩
    · rw [hdest]
      show [] ++ src.filter (fun _ => true) = src
      simp
    · rw [hri]
      show 0 + (src.filter fun _ => true).length = src.length
      simp
    · rw [hbn]
      show 1 + (src.length + B - 1) / B = 1 + (src.length + B - 1) / B
      rfl

/-- Witness for C8: five sorted keys with batch size two move as five
rows in three batches. -/
theorem claim_C8_full_load_counts_witness :
    (fullLoadExecute true [1, 2, 3, 4, 5] [] 2 (fun _ => true)
        (fun _ => true) (fun _ => true) none 6).dest = [1, 2, 3, 4, 5] ∧
    (fullLoadExecute true [1, 2, 3, 4, 5] [] 2 (fun _ => true)
        (fun _ => true) (fun _ => true) none 6).rowsInserted = 5 ∧
    (fullLoadExecute true [1, 2, 3, 4, 5] [] 2 (fun _ => true)
        (fun _ => true) (fun _ => true) none 6).saves.length = 3 := by
  have h := claim_C8_full_load_counts [1, 2, 3, 4, 5] 2 (by omega)
    (by decide)
  exact ⟨h.1.1, h.1.2.1, h.1.2.2.2.1⟩

/-- Claim C5: an unrecoverable error in a batch transaction — a begin
failure or a commit failure — leaves the destination unchanged (the
whole transaction is rolled back), releases the pooled connection,
propagates the error instead of returning a batch result, and makes the
run abort with the accumulated state of all previously committed
batches, including their persisted checkpoints, untouched. -/
theorem claim_C5_batch_abort (dest batch : List Nat) (rowOk : Nat → Bool)
    (beginOk commitOk : Bool) (hasPk : Bool) (src : List Nat) (B : Nat)
    (bOk cOk : Nat → Bool) (fuel : Nat) (st : RunState)
    (hfail : beginOk = false ∨ commitOk = false)
    (hfail2 : bOk st.batchNumber = false ∨ cOk st.batchNumber = false)
    (hfetch : (fetchBatch hasPk src st.lastKey st.batchNumber B).isEmpty
      = false) :
    (processBatchTx beginOk commitOk rowOk dest batch).dest = dest ∧
    (processBatchTx beginOk commitOk rowOk dest batch).connReleased = true ∧
    (processBatchTx beginOk commitOk rowOk dest batch).result = none ∧
    fullLoadGo hasPk src B rowOk bOk cOk (fuel + 1) st =
      { st with aborted := true } := by
  rw [processBatchTx_fail beginOk commitOk rowOk dest batch hfail]
  refine ⟨rfl, rfl, rfl, ?_⟩
  rw [fullLoadGo, hfetch]
  simp only [Bool.false_eq_true, if_false]
  rw [stepBatch_fail hasPk rowOk (bOk st.batchNumber) (cOk st.batchNumber)
    (fetchBatch hasPk src st.lastKey st.batchNumber B) st hfail2]
  rw [if_pos rfl]

/-- Witness for C5: a commit failure on the first batch of a concrete
run aborts it with the state unchanged. -/
theorem claim_C5_batch_abort_witness :
    (processBatchTx true false (fun _ => true) [10] [11, 12]).dest = [10] ∧
    (processBatchTx true false (fun _ => true) [10] [11, 12]).connReleased
      = true ∧
    (processBatchTx true false (fun _ => true) [10] [11, 12]).result
      = none ∧
    fullLoadGo true [1, 2] 2 (fun _ => true) (fun _ => true)
        (fun _ => false) 1 (initState true [] none) =
      { initState true [] none with aborted := true } :=
  claim_C5_batch_abort [10] [11, 12] (fun _ => true) true false true [1, 2]
    2 (fun _ => true) (fun _ => false) 0 (initState true [] none)
    (Or.inr rfl) (Or.inr rfl) (by decide)

/-! ## Lemmas about the checkpoint and watermark save sequences -/

lemma fullLoadGo_saves (src : List Nat) (B : Nat) (rowOk : Nat → Bool)
    (bOk cOk : Nat → Bool) :
    ∀ (fuel : Nat) (st : RunState), st.aborted = false →
      (fullLoadGo true src B rowOk bOk cOk fuel st).saves =
        st.saves ++ pkSeq src B bOk cOk fuel st.lastKey st.batchNumber := by
  intro fuel
  induction fuel with
  | zero => intro st hab; simp [fullLoadGo, pkSeq]
  | succ fuel ih =>
    intro st hab
    rw [fullLoadGo, pkSeq]
    have hfetch : fetchBatch true src st.lastKey st.batchNumber B =
        keysetFetch src st.lastKey B := by
      unfold fetchBatch
      rw [if_pos rfl]
    rw [hfetch]
    by_cases hbe : (keysetFetch src st.lastKey B).isEmpty = true
    · rw [hbe]
      simp only [if_true]
      unfold completeCp
      simp
    · have hbe2 : (keysetFetch src st.lastKey B).isEmpty = false := by
        rw [Bool.not_eq_true] at hbe
        exact hbe
      rw [hbe2]
      simp only [Bool.false_eq_true, if_false]
      by_cases hb : bOk st.batchNumber = true
      · by_cases hc : cOk st.batchNumber = true
        · rw [hb, hc]
          rw [stepBatch_ok_pk rowOk (keysetFetch src st.lastKey B) st]
          rw [if_neg (by simp [hab])]
          rw [ih _ (by exact hab)]
          show st.saves ++ [(keysetFetch src st.lastKey B,
              ((keysetFetch src st.lastKey B).getLast?).getD 0)] ++
            pkSeq src B bOk cOk fuel
              (some (((keysetFetch src st.lastKey B).getLast?).getD 0))
              (st.batchNumber + 1) = _
          rw [List.append_assoc]
          simp
        · have hc2 : cOk st.batchNumber = false := by
            rw [Bool.not_eq_true] at hc
            exact hc
          rw [stepBatch_fail true rowOk _ _ _ st (Or.inr hc2)]
          rw [if_pos rfl]
          simp [hb, hc2]
      · have hb2 : bOk st.batchNumber = false := by
          rw [Bool.not_eq_true] at hb
          exact hb
        rw [stepBatch_fail true rowOk _ _ _ st (Or.inl hb2)]
        rw [if_pos rfl]
        simp [hb2]

lemma incrementalGo_saves (src : List Nat) (B : Nat) (rowOk : Nat → Bool)
    (bOk cOk : Nat → Bool) :
    ∀ (fuel : Nat) (bn : Nat) (st : IncState),
      (incrementalGo src B rowOk bOk cOk fuel bn st).saves =
        st.saves ++ pkSeq src B bOk cOk fuel st.watermark bn := by
  intro fuel
  induction fuel with
  | zero => intro bn st; simp [incrementalGo, pkSeq]
  | succ fuel ih =>
    intro bn st
    rw [incrementalGo, pkSeq]
    by_cases hbe : (keysetFetch src st.watermark B).isEmpty = true
    · rw [hbe]
      simp
    · have hbe2 : (keysetFetch src st.watermark B).isEmpty = false := by
        rw [Bool.not_eq_true] at hbe
        exact hbe
      rw [hbe2]
      simp only [Bool.false_eq_true, if_false]
      by_cases hb : bOk bn = true
      · by_cases hc : cOk bn = true
        · rw [hb, hc]
          rw [processBatchTx_ok rowOk st.dest (keysetFetch src st.watermark B)]
          simp only []
          rw [ih]
          show (st.saves ++ [(keysetFetch src st.watermark B,
              ((keysetFetch src st.watermark B).getLast?).getD 0)]) ++
            pkSeq src B bOk cOk fuel
              (some (((keysetFetch src st.watermark B).getLast?).getD 0))
              (bn + 1) = _
          rw [List.append_assoc]
          simp
        · have hc2 : cOk bn = false := by
            rw [Bool.not_eq_true] at hc
            exact hc
          rw [processBatchTx_fail (bOk bn) (cOk bn) rowOk st.dest
            (keysetFetch src st.watermark B) (Or.inr hc2)]
          simp [hb, hc2]
      · have hb2 : bOk bn = false := by
          rw [Bool.not_eq_true] at hb
          exact hb
        rw [processBatchTx_fail (bOk bn) (cOk bn) rowOk st.dest
          (keysetFetch src st.watermark B) (Or.inl hb2)]
        simp [hb2]

lemma pkSeq_props (src : List Nat) (B : Nat) (bOk cOk : Nat → Bool)
    (hsrc : src.Sorted (· < ·)) :
    ∀ (fuel : Nat) (lastKey : Option Nat) (bn : Nat),
      (∀ p ∈ pkSeq src B bOk cOk fuel lastKey bn,
        (∀ k, lastKey = some k → k < p.2) ∧ p.2 ∈ p.1 ∧
          (∀ x ∈ p.1, x ≤ p.2) ∧ p.1 ≠ []) ∧
      List.Chain' (fun p q : List Nat × Nat => p.2 < q.2)
        (pkSeq src B bOk cOk fuel lastKey bn) := by
  intro fuel
  induction fuel with
  | zero =>
    intro lastKey bn
    constructor
    · intro p hp
      simp [pkSeq] at hp
    · simp [pkSeq]
  | succ fuel ih =>
    intro lastKey bn
    rw [pkSeq]
    by_cases hbe : (keysetFetch src lastKey B).isEmpty = true
    · rw [hbe]
      simp
    · have hbe2 : (keysetFetch src lastKey B).isEmpty = false := by
        rw [Bool.not_eq_true] at hbe
        exact hbe
      rw [hbe2]
      simp only [Bool.false_eq_true, if_false]
      by_cases hbc : (bOk bn && cOk bn) = true
      · rw [hbc]
        simp only [if_true]
        have hbne : keysetFetch src lastKey B ≠ [] := by
          intro hcon
          rw [hcon] at hbe2
          simp at hbe2
        obtain ⟨b, hb⟩ : ∃ b, (keysetFetch src lastKey B).getLast?
            = some b := by
          cases hgl : (keysetFetch src lastKey B).getLast? with
          | none => exact absurd (List.getLast?_eq_none_iff.mp hgl) hbne
          | some b => exact ⟨b, rfl⟩
        have hpk : ((keysetFetch src lastKey B).getLast?).getD 0 = b := by
          rw [hb]
          rfl
        rw [hpk]
        have hbmem : b ∈ keysetFetch src lastKey B :=
          List.mem_of_mem_getLast? hb
        have hmax : ∀ x ∈ keysetFetch src lastKey B, x ≤ b :=
          keysetFetch_max src hsrc lastKey B b hb
        have hgt : ∀ k, lastKey = some k → k < b := by
          intro k hk
          subst hk
          exact keysetRem_gt src k b
            (keysetFetch_subset_rem src (some k) B b hbmem)
        obtain ⟨ihmem, ihchain⟩ := ih (some b) (bn + 1)
        constructor
        · intro p hp
          rcases List.mem_cons.mp hp with rfl | hp2
          · exact ⟨hgt, hbmem, hmax, hbne⟩
          · obtain ⟨hgt2, hmem2, hmax2, hne2⟩ := ihmem p hp2
            refine ⟨?_, hmem2, hmax2, hne2⟩
            intro k hk
            have hb2 := hgt2 b rfl
            have := hgt k hk
            omega
        · rw [List.chain'_cons']
          refine ⟨?_, ihchain⟩
          intro q hq
          have hqmem : q ∈ pkSeq src B bOk cOk fuel (some b) (bn + 1) := by
            cases hseq : pkSeq src B bOk cOk fuel (some b) (bn + 1) with
            | nil => rw [hseq] at hq; simp at hq
            | cons q0 qs =>
              rw [hseq] at hq
              simp only [List.head?_cons, Option.mem_def,
                Option.some.injEq] at hq
              subst hq
              exact List.mem_cons_self q0 qs
          exact (ihmem q hqmem).1 b rfl
      · have hbc2 : (bOk bn && cOk bn) = false := by
          rw [Bool.not_eq_true] at hbc
          exact hbc
        rw [hbc2]
        simp

lemma initState_aborted (hasPk : Bool) (dest0 : List Nat)
    (resume : Option Checkpoint) :
    (initState hasPk dest0 resume).aborted = false := by
  unfold initState
  cases hasPk <;> cases resume <;> rfl

lemma initState_saves (hasPk : Bool) (dest0 : List Nat)
    (resume : Option Checkpoint) :
    (initState hasPk dest0 resume).saves = [] := by
  unfold initState
  cases hasPk <;> cases resume <;> rfl

lemma fullLoadExecute_saves (src dest0 : List Nat) (B : Nat)
    (rowOk bOk cOk : Nat → Bool) (resume : Option Checkpoint) (fuel : Nat) :
    (fullLoadExecute true src dest0 B rowOk bOk cOk resume fuel).saves =
      pkSeq src B bOk cOk fuel (initState true dest0 resume).lastKey
        (initState true dest0 resume).batchNumber := by
  unfold fullLoadExecute
  rw [fullLoadGo_saves src B rowOk bOk cOk fuel (initState true dest0 resume)
    (initState_aborted true dest0 resume)]
  rw [initState_saves]
  simp

lemma incrementalExecute_saves (src : List Nat) (B : Nat)
    (rowOk bOk cOk : Nat → Bool) (stored : Option Nat) (fuel : Nat) :
    (incrementalExecute src B rowOk bOk cOk stored fuel).saves =
      pkSeq src B bOk cOk fuel stored 1 := by
  unfold incrementalExecute
  rw [incrementalGo_saves]
  simp

/-- Claim C7: across the sequence of checkpoint saves of a keyed full
load and of watermark saves of an incremental load, the stored key
never decreases from one save to the next, each save records the
maximum key observed in its batch, the sequence does not depend on
row-level insert outcomes, and every saved key strictly exceeds the
resumed checkpoint key or stored watermark the run started from. -/
theorem claim_C7_watermark_monotonic (src dest0 : List Nat) (B : Nat)
    (rowOk rowOk2 bOk cOk : Nat → Bool) (resume : Option Checkpoint)
    (stored : Option Nat) (fuel : Nat) (hsrc : src.Sorted (· < ·)) :
    ((fullLoadExecute true src dest0 B rowOk bOk cOk resume fuel).saves =
      (fullLoadExecute true src dest0 B rowOk2 bOk cOk resume fuel).saves) ∧
    List.Chain' (· ≤ ·)
      ((fullLoadExecute true src dest0 B rowOk bOk cOk resume
        fuel).saves.map (fun p => p.2)) ∧
    (∀ p ∈ (fullLoadExecute true src dest0 B rowOk bOk cOk resume
        fuel).saves, p.2 ∈ p.1 ∧ ∀ x ∈ p.1, x ≤ p.2) ∧
    (∀ c, resume = some c →
      ∀ p ∈ (fullLoadExecute true src dest0 B rowOk bOk cOk resume
        fuel).saves, c.lastProcessedPk < p.2) ∧
    ((incrementalExecute src B rowOk bOk cOk stored fuel).saves =
      (incrementalExecute src B rowOk2 bOk cOk stored fuel).saves) ∧
    List.Chain' (· ≤ ·)
      ((incrementalExecute src B rowOk bOk cOk stored fuel).saves.map
        (fun p => p.2)) ∧
    (∀ p ∈ (incrementalExecute src B rowOk bOk cOk stored fuel).saves,
      p.2 ∈ p.1 ∧ ∀ x ∈ p.1, x ≤ p.2) ∧
    (∀ w, stored = some w →
      ∀ p ∈ (incrementalExecute src B rowOk bOk cOk stored fuel).saves,
        w < p.2) := by
  have hprops := pkSeq_props src B bOk cOk hsrc fuel
  have hchainle : ∀ (lk : Option Nat) (bn : Nat),
      List.Chain' (· ≤ ·)
        ((pkSeq src B bOk cOk fuel lk bn).map (fun p => p.2)) := by
    intro lk bn
    rw [List.chain'_map]
    exact ((hprops lk bn).2).imp fun a b h => le_of_lt h
  refine ⟨?_, ?_, ?_, ?_, ?_, ?_, ?_, ?_⟩
  · rw [fullLoadExecute_saves, fullLoadExecute_saves]
  · rw [fullLoadExecute_saves]
    exact hchainle _ _
  · rw [fullLoadExecute_saves]
    intro p hp
    obtain ⟨_, h2, h3, _⟩ := ((hprops _ _).1) p hp
    exact ⟨h2, h3⟩
  · intro c hc
    subst hc
    rw [fullLoadExecute_saves]
    intro p hp
    exact (((hprops _ _).1) p hp).1 c.lastProcessedPk rfl
  · rw [incrementalExecute_saves, incrementalExecute_saves]
  · rw [incrementalExecute_saves]
    exact hchainle _ _
  · rw [incrementalExecute_saves]
    intro p hp
    obtain ⟨_, h2, h3, _⟩ := ((hprops _ _).1) p hp
    exact ⟨h2, h3⟩
  · intro w hw
    subst hw
    rw [incrementalExecute_saves]
    intro p hp
    exact (((hprops _ _).1) p hp).1 w rfl

/-- Witness for C7: a concrete incremental run from watermark 500 over
keys 501..503 makes one save at 503, above the seed and maximal in its
batch. -/
theorem claim_C7_watermark_monotonic_witness :
    List.Chain' (· ≤ ·)
      ((incrementalExecute [501, 502, 503] 10 (fun _ => true)
        (fun _ => true) (fun _ => true) (some 500) 4).saves.map
          (fun p => p.2)) ∧
    (∀ p ∈ (incrementalExecute [501, 502, 503] 10 (fun _ => true)
        (fun _ => true) (fun _ => true) (some 500) 4).saves,
      500 < p.2) :=
  ⟨(claim_C7_watermark_monotonic [501, 502, 503] [] 10 (fun _ => true)
      (fun _ => true) (fun _ => true) (fun _ => true) none (some 500) 4
      (by decide)).2.2.2.2.2.1,
    (claim_C7_watermark_monotonic [501, 502, 503] [] 10 (fun _ => true)
      (fun _ => true) (fun _ => true) (fun _ => true) none (some 500) 4
      (by decide)).2.2.2.2.2.2.2 500 rfl⟩

/-! ## The checkpoint-behind-commit invariant -/

/-- A persistence snapshot is consistent when every successfully
insertable source key the stored checkpoint claims to have passed
(key at most the checkpoint cursor) is already committed in the
destination: the checkpoint never runs ahead of the committed state. -/
def snapOk (rowOk : Nat → Bool) (src : List Nat) (s : Snap) : Prop :=
  ∀ k ∈ src, rowOk k = true → ∀ c, s.cp = some c →
    k ≤ c.lastProcessedPk → k ∈ s.dest

/-- Invariant threaded through the loop: keys at or below the cursor
are committed, and the stored checkpoint cursor is at most the loop
cursor. -/
def cursorInv (rowOk : Nat → Bool) (src : List Nat) (st : RunState) : Prop :=
  (∀ k ∈ src, rowOk k = true → ∀ m, st.lastKey = some m → k ≤ m →
    k ∈ st.dest) ∧
  (∀ c, st.cp = some c → ∃ m, st.lastKey = some m ∧
    c.lastProcessedPk ≤ m)

lemma fullLoadGo_snapOk (src : List Nat) (B : Nat) (rowOk : Nat → Bool)
    (bOk cOk : Nat → Bool) (hsrc : src.Sorted (· < ·)) :
    ∀ (fuel : Nat) (st : RunState), cursorInv rowOk src st →
      (∀ s ∈ st.snaps, snapOk rowOk src s) →
      ∀ s ∈ (fullLoadGo true src B rowOk bOk cOk fuel st).snaps,
        snapOk rowOk src s := by
  intro fuel
  induction fuel with
  | zero => intro st hinv hsnaps; exact hsnaps
  | succ fuel ih =>
    intro st hinv hsnaps
    rw [fullLoadGo]
    have hfetch : fetchBatch true src st.lastKey st.batchNumber B =
        keysetFetch src st.lastKey B := by
      unfold fetchBatch
      rw [if_pos rfl]
    rw [hfetch]
    by_cases hbe : (keysetFetch src st.lastKey B).isEmpty = true
    · rw [hbe]
      simp only [if_true]
      intro s hs
      have hs2 : s ∈ st.snaps ++
          [⟨st.dest, st.cp.map fun c => { c with status := "completed" }⟩] :=
        hs
      rcases List.mem_append.mp hs2 with h1 | h2
      · exact hsnaps s h1
      · have hse : s = ⟨st.dest,
            st.cp.map fun c => { c with status := "completed" }⟩ := by
          simpa using h2
        subst hse
        intro k hk hok c hc hkle
        cases hcp : st.cp with
        | none =>
          rw [hcp] at hc
          simp at hc
        | some c0 =>
          rw [hcp] at hc
          simp only [Option.map_some', Option.some.injEq] at hc
          obtain ⟨m, hm, hle⟩ := hinv.2 c0 hcp
          have hklast : k ≤ c0.lastProcessedPk := by
            rw [← hc] at hkle
            exact hkle
          exact hinv.1 k hk hok m hm (by omega)
    · have hbe2 : (keysetFetch src st.lastKey B).isEmpty = false := by
        rw [Bool.not_eq_true] at hbe
        exact hbe
      rw [hbe2]
      simp only [Bool.false_eq_true, if_false]
      have hbne : keysetFetch src st.lastKey B ≠ [] := by
        intro hcon
        rw [hcon] at hbe2
        simp at hbe2
      by_cases hbc : bOk st.batchNumber = true ∧ cOk st.batchNumber = true
      · rw [hbc.1, hbc.2]
        rw [stepBatch_ok_pk rowOk (keysetFetch src st.lastKey B) st]
        obtain ⟨b, hb⟩ : ∃ b, (keysetFetch src st.lastKey B).getLast?
            = some b := by
          cases hgl : (keysetFetch src st.lastKey B).getLast? with
          | none => exact absurd (List.getLast?_eq_none_iff.mp hgl) hbne
          | some b => exact ⟨b, rfl⟩
        have hpk : ((keysetFetch src st.lastKey B).getLast?).getD 0 = b := by
          rw [hb]
          rfl
        have hcov : ∀ k ∈ src, rowOk k = true → k ≤ b →
            k ∈ st.dest ++ (keysetFetch src st.lastKey B).filter rowOk := by
          intro k hk hok hkb
          by_cases hlow : ∃ m, st.lastKey = some m ∧ k ≤ m
          · obtain ⟨m, hm, hkm⟩ := hlow
            exact List.mem_append_left _ (hinv.1 k hk hok m hm hkm)
          · have hkrem : k ∈ keysetRem src st.lastKey := by
              cases hlk : st.lastKey with
              | none => exact hk
              | some m =>
                have hmk : m < k := by
                  by_contra hcon
                  exact hlow ⟨m, hlk, by omega⟩
                show k ∈ src.filter fun x => decide (m < x)
                refine List.mem_filter.mpr ⟨hk, by simpa using hmk⟩
            have hkb2 : k ∈ keysetFetch src st.lastKey B :=
              mem_keysetFetch_of_le src hsrc st.lastKey B b k hb hkrem hkb
            refine List.mem_append_right _ ?_
            exact List.mem_filter.mpr ⟨hkb2, hok⟩
        set cp1 : Checkpoint :=
          ⟨((keysetFetch src st.lastKey B).getLast?).getD 0,
            st.batchNumber,
            st.rowsProcessed + (keysetFetch src st.lastKey B).length,
            st.rowsInserted +
              ((keysetFetch src st.lastKey B).filter rowOk).length,
            "in_progress"⟩ with hcp1
        set st1 : RunState :=
          { dest := st.dest ++ (keysetFetch src st.lastKey B).filter rowOk,
            cp := some cp1,
            lastKey := some (((keysetFetch src st.lastKey B).getLast?).getD 0),
            batchNumber := st.batchNumber + 1,
            rowsProcessed :=
              st.rowsProcessed + (keysetFetch src st.lastKey B).length,
            rowsInserted := st.rowsInserted +
              ((keysetFetch src st.lastKey B).filter rowOk).length,
            saves := st.saves ++
              [(keysetFetch src st.lastKey B,
                ((keysetFetch src st.lastKey B).getLast?).getD 0)],
            snaps := st.snaps ++
              [⟨st.dest ++ (keysetFetch src st.lastKey B).filter rowOk,
                st.cp⟩] ++
              [⟨st.dest ++ (keysetFetch src st.lastKey B).filter rowOk,
                some cp1⟩],
            aborted := st.aborted } with hst1
        have hsnapA : snapOk rowOk src
            ⟨st.dest ++ (keysetFetch src st.lastKey B).filter rowOk,
              st.cp⟩ := by
          intro k hk hok c hc hkle
          obtain ⟨m, hm, hle⟩ := hinv.2 c hc
          exact List.mem_append_left _ (hinv.1 k hk hok m hm (by omega))
        have hsnapB : snapOk rowOk src
            ⟨st.dest ++ (keysetFetch src st.lastKey B).filter rowOk,
              some cp1⟩ := by
          intro k hk hok c hc hkle
          have hce : cp1 = c := by simpa using hc
          rw [← hce] at hkle
          have hkb : k ≤ b := by
            rw [hcp1] at hkle
            simpa [hpk] using hkle
          exact hcov k hk hok hkb
        have hsnaps1 : ∀ s ∈ st1.snaps, snapOk rowOk src s := by
          intro s hs
          have hs2 : s ∈ st.snaps ++
              [⟨st.dest ++ (keysetFetch src st.lastKey B).filter rowOk,
                st.cp⟩] ++
              [⟨st.dest ++ (keysetFetch src st.lastKey B).filter rowOk,
                some cp1⟩] := hs
          rcases List.mem_append.mp hs2 with h12 | h3
          · rcases List.mem_append.mp h12 with h1 | h2
            · exact hsnaps s h1
            · have : s = ⟨st.dest ++
                  (keysetFetch src st.lastKey B).filter rowOk, st.cp⟩ := by
                simpa using h2
              rw [this]
              exact hsnapA
          · have : s = ⟨st.dest ++
                (keysetFetch src st.lastKey B).filter rowOk, some cp1⟩ := by
              simpa using h3
            rw [this]
            exact hsnapB
        have hinv1 : cursorInv rowOk src st1 := by
          constructor
          · intro k hk hok m hm hkm
            have hmb : m = b := by
              have : some (((keysetFetch src st.lastKey B).getLast?).getD 0)
                  = some m := hm
              rw [hpk] at this
              exact (Option.some.injEq _ _ ▸ this).symm
            subst hmb
            exact hcov k hk hok hkm
          · intro c hc
            have hce : cp1 = c := by simpa using hc
            refine ⟨b, ?_, ?_⟩
            · show some (((keysetFetch src st.lastKey B).getLast?).getD 0)
                = some b
              rw [hpk]
            · rw [← hce, hcp1]
              simp [hpk]
        by_cases habt : st1.aborted = true
        · rw [if_pos habt]
          exact hsnaps1
        · rw [if_neg habt]
          exact ih st1 hinv1 hsnaps1
      · have hfail : bOk st.batchNumber = false ∨ cOk st.batchNumber
            = false := by
          by_cases hbb : bOk st.batchNumber = true
          · by_cases hcc : cOk st.batchNumber = true
            · exact absurd ⟨hbb, hcc⟩ hbc
            · exact Or.inr (by rwa [Bool.not_eq_true] at hcc)
          · exact Or.inl (by rwa [Bool.not_eq_true] at hbb)
        rw [stepBatch_fail true rowOk _ _ _ st hfail]
        rw [if_pos rfl]
        exact hsnaps

/-- Claim C6: in the keyed full load the checkpoint is persisted only
after its batch transaction commits, so every persistence snapshot of
the run satisfies `snapOk`: the stored checkpoint never runs ahead of
the durably committed destination state, and a crash loses at most the
in-flight, uncommitted batch. The run may start fresh or resume from a
checkpoint whose covered keys are already committed. -/
theorem claim_C6_checkpoint_behind_commits (src dest0 : List Nat) (B : Nat)
    (rowOk bOk cOk : Nat → Bool) (resume : Option Checkpoint) (fuel : Nat)
    (hsrc : src.Sorted (· < ·))
    (hres : ∀ c, resume = some c → ∀ k ∈ src, rowOk k = true →
      k ≤ c.lastProcessedPk → k ∈ dest0) :
    ∀ s ∈ (fullLoadExecute true src dest0 B rowOk bOk cOk resume
      fuel).snaps, snapOk rowOk src s := by
  unfold fullLoadExecute
  refine fullLoadGo_snapOk src B rowOk bOk cOk hsrc fuel
    (initState true dest0 resume) ?_ ?_
  · cases resume with
    | none =>
      constructor
      · intro k hk hok m hm
        cases hm
      · intro c hc
        cases hc
    | some c0 =>
      constructor
      · intro k hk hok m hm hkm
        have hme : c0.lastProcessedPk = m := by
          have : some c0.lastProcessedPk = some m := hm
          simpa using this
        exact hres c0 rfl k hk hok (by omega)
      · intro c hc
        have hcc : some c0 = some c := hc
        have hce : c0 = c := Option.some.inj hcc
        exact ⟨c0.lastProcessedPk, rfl, by rw [← hce]⟩
  · intro s hs
    have hempty : (initState true dest0 resume).snaps = [] := by
      unfold initState
      cases resume <;> rfl
    rw [hempty] at hs
    exact absurd hs (List.not_mem_nil s)

/-- Witness for C6: a snapshot from a concrete two-batch run satisfies
the invariant. -/
theorem claim_C6_checkpoint_behind_commits_witness :
    snapOk (fun _ => true) [1, 2]
      ⟨[1, 2], some ⟨2, 2, 2, 2, "in_progress"⟩⟩ :=
  claim_C6_checkpoint_behind_commits [1, 2] [] 1 (fun _ => true)
    (fun _ => true) (fun _ => true) none 3 (by decide)
    (fun c hc => nomatch hc)
    ⟨[1, 2], some ⟨2, 2, 2, 2, "in_progress"⟩⟩ (by decide)

/-! ## Lemmas about the delta-load event trace -/

/-- Events that are neither a commit nor a processed-mark. -/
def neutralEv : DeltaEv → Bool
  | DeltaEv.commitTx => false
  | DeltaEv.markProcessed _ => false
  | _ => true

lemma mfc_cons_neutral (e : DeltaEv) (l : List DeltaEv)
    (h : neutralEv e = true) :
    marksFollowCommit (e :: l) = marksFollowCommit l := by
  cases e with
  | addTomb n => rfl
  | beginTx => rfl
  | delAttempt n ok => rfl
  | rollbackTx => rfl
  | commitTx => simp [neutralEv] at h
  | markProcessed ms => simp [neutralEv] at h

lemma mfc_commit_mark (ms : List Nat) (l : List DeltaEv) :
    marksFollowCommit (DeltaEv.commitTx :: DeltaEv.markProcessed ms :: l) =
      marksFollowCommit l := rfl

lemma mfc_neutral_append :
    ∀ (xs r : List DeltaEv), (∀ e ∈ xs, neutralEv e = true) →
      marksFollowCommit (xs ++ r) = marksFollowCommit r := by
  intro xs
  induction xs with
  | nil => intro r _; rfl
  | cons e rest ih =>
    intro r h
    rw [List.cons_append,
      mfc_cons_neutral e (rest ++ r) (h e (List.mem_cons_self e rest))]
    exact ih r fun e2 he2 => h e2 (List.mem_cons_of_mem e he2)

lemma dels_neutral (delOk : Nat → Bool) (chunk : List Nat) :
    ∀ e ∈ chunk.map (fun id => DeltaEv.delAttempt id (delOk id)),
      neutralEv e = true := by
  intro e he
  obtain ⟨id, _, hid⟩ := List.mem_map.mp he
  rw [← hid]
  rfl

lemma chunkTrace_commit (delOk : Nat → Bool) (chunk : List Nat) :
    chunkTrace delOk true true chunk =
      (DeltaEv.beginTx ::
        chunk.map (fun id => DeltaEv.delAttempt id (delOk id)) ++
        [DeltaEv.commitTx, DeltaEv.markProcessed chunk], false) := rfl

lemma chunkTrace_rollback (delOk : Nat → Bool) (chunk : List Nat) :
    chunkTrace delOk true false chunk =
      (DeltaEv.beginTx ::
        chunk.map (fun id => DeltaEv.delAttempt id (delOk id)) ++
        [DeltaEv.rollbackTx], true) := rfl

lemma chunkTrace_beginFail (delOk : Nat → Bool) (commitOk : Bool)
    (chunk : List Nat) :
    chunkTrace delOk false commitOk chunk = ([], true) := rfl

lemma chunksTrace_mfc (delOk : Nat → Bool) (bOkAt cOkAt : Nat → Bool) :
    ∀ (cs : List (List Nat)) (bn : Nat),
      marksFollowCommit (chunksTrace delOk bOkAt cOkAt cs bn) = true := by
  intro cs
  induction cs with
  | nil => intro bn; rfl
  | cons c rest ih =>
    intro bn
    rw [chunksTrace]
    by_cases hb : bOkAt bn = true
    · have hneut : ∀ e ∈ DeltaEv.beginTx ::
          c.map (fun id => DeltaEv.delAttempt id (delOk id)),
          neutralEv e = true := by
        intro e he
        rcases List.mem_cons.mp he with rfl | he2
        · rfl
        · exact dels_neutral delOk c e he2
      by_cases hc : cOkAt bn = true
      · rw [hb, hc, chunkTrace_commit]
        simp only [Bool.false_eq_true, if_false]
        rw [List.append_assoc, mfc_neutral_append _ _ hneut,
          List.cons_append, List.cons_append, List.nil_append,
          mfc_commit_mark]
        exact ih (bn + 1)
      · have hc2 : cOkAt bn = false := by
          rw [Bool.not_eq_true] at hc
          exact hc
        rw [hb, hc2, chunkTrace_rollback]
        simp only [if_true]
        rw [mfc_neutral_append _ _ hneut]
        rfl
    · have hb2 : bOkAt bn = false := by
        rw [Bool.not_eq_true] at hb
        exact hb
      rw [hb2, chunkTrace_beginFail]
      simp only [if_true]
      rfl

lemma deltaExecTrace_mfc (delOk bOkAt cOkAt : Nat → Bool) (B : Nat)
    (ids : List Nat) :
    marksFollowCommit (deltaExecTrace delOk bOkAt cOkAt B ids) = true := by
  unfold deltaExecTrace
  by_cases hne : ids.isEmpty = true
  · rw [hne]
    simp only [if_true]
    rfl
  · have hne2 : ids.isEmpty = false := by
      rw [Bool.not_eq_true] at hne
      exact hne
    rw [hne2]
    simp only [Bool.false_eq_true, if_false]
    have htombneutral : ∀ e ∈ ids.map DeltaEv.addTomb, neutralEv e
        = true := by
      intro e he
      obtain ⟨id, _, hid⟩ := List.mem_map.mp he
      rw [← hid]
      rfl
    rw [mfc_neutral_append _ _ htombneutral]
    exact chunksTrace_mfc delOk bOkAt cOkAt (chunksOf B ids) 1

lemma marksOf_neutral (xs : List DeltaEv)
    (h : ∀ e ∈ xs, neutralEv e = true) : marksOf xs = [] := by
  unfold marksOf
  rw [List.filterMap_eq_nil_iff]
  intro e he
  have hne := h e he
  cases e with
  | addTomb n => rfl
  | beginTx => rfl
  | delAttempt n ok => rfl
  | rollbackTx => rfl
  | commitTx => simp [neutralEv] at hne
  | markProcessed ms => simp [neutralEv] at hne

lemma marksOf_append (a b : List DeltaEv) :
    marksOf (a ++ b) = marksOf a ++ marksOf b := by
  unfold marksOf
  exact List.filterMap_append a b _

lemma marksOf_chunksTrace (delOk : Nat → Bool) (bOkAt cOkAt : Nat → Bool)
    (hb : ∀ n, bOkAt n = true) (hc : ∀ n, cOkAt n = true) :
    ∀ (cs : List (List Nat)) (bn : Nat),
      marksOf (chunksTrace delOk bOkAt cOkAt cs bn) = cs := by
  intro cs
  induction cs with
  | nil => intro bn; rfl
  | cons c rest ih =>
    intro bn
    rw [chunksTrace, hb bn, hc bn, chunkTrace_commit]
    simp only [Bool.false_eq_true, if_false]
    have hshape : (DeltaEv.beginTx ::
        c.map (fun id => DeltaEv.delAttempt id (delOk id)) ++
        [DeltaEv.commitTx, DeltaEv.markProcessed c]) ++
        chunksTrace delOk bOkAt cOkAt rest (bn + 1) =
        [DeltaEv.beginTx] ++
        (c.map fun id => DeltaEv.delAttempt id (delOk id)) ++
        ([DeltaEv.commitTx, DeltaEv.markProcessed c] ++
          chunksTrace delOk bOkAt cOkAt rest (bn + 1)) := by
      simp
    rw [hshape, marksOf_append, marksOf_append]
    have hbegin : marksOf [DeltaEv.beginTx] = [] := rfl
    rw [hbegin, marksOf_neutral _ (dels_neutral delOk c)]
    have hcm : marksOf ([DeltaEv.commitTx, DeltaEv.markProcessed c] ++
        chunksTrace delOk bOkAt cOkAt rest (bn + 1)) =
        c :: marksOf (chunksTrace delOk bOkAt cOkAt rest (bn + 1)) := rfl
    rw [hcm, ih (bn + 1)]
    rfl

lemma marksOf_deltaExecTrace (delOk bOkAt cOkAt : Nat → Bool) (B : Nat)
    (ids : List Nat) (hb : ∀ n, bOkAt n = true) (hc : ∀ n, cOkAt n = true) :
    marksOf (deltaExecTrace delOk bOkAt cOkAt B ids) = chunksOf B ids := by
  unfold deltaExecTrace
  by_cases hne : ids.isEmpty = true
  · rw [hne]
    simp only [if_true]
    have hids : ids = [] := by
      cases ids with
      | nil => rfl
      | cons a l => simp at hne
    rw [hids]
    rfl
  · have hne2 : ids.isEmpty = false := by
      rw [Bool.not_eq_true] at hne
      exact hne
    rw [hne2]
    simp only [Bool.false_eq_true, if_false]
    rw [marksOf_append]
    have htombneutral : ∀ e ∈ ids.map DeltaEv.addTomb, neutralEv e
        = true := by
      intro e he
      obtain ⟨id, _, hid⟩ := List.mem_map.mp he
      rw [← hid]
      rfl
    rw [marksOf_neutral _ htombneutral]
    rw [marksOf_chunksTrace delOk bOkAt cOkAt hb hc (chunksOf B ids) 1]
    rfl

lemma chunksGo_join (B : Nat) (hB : 0 < B) :
    ∀ (fuel : Nat) (l : List Nat), l.length ≤ fuel →
      (chunksGo B fuel l).flatten = l := by
  intro fuel
  induction fuel with
  | zero =>
    intro l hl
    have hln : l = [] := List.length_eq_zero.mp (by omega)
    rw [hln]
    rfl
  | succ fuel ih =>
    intro l hl
    rw [chunksGo]
    by_cases hle : l.isEmpty = true
    · rw [hle]
      simp only [if_true]
      cases l with
      | nil => rfl
      | cons a t => simp at hle
    · have hle2 : l.isEmpty = false := by
        rw [Bool.not_eq_true] at hle
        exact hle
      rw [hle2]
      simp only [Bool.false_eq_true, if_false]
      rw [List.flatten_cons]
      have hlne : l ≠ [] := by
        intro hcon
        rw [hcon] at hle2
        simp at hle2
      have hpos : 0 < l.length := List.length_pos.mpr hlne
      rw [ih (l.drop B) (by rw [List.length_drop]; omega)]
      exact List.take_append_drop B l

lemma chunksOf_join (B : Nat) (hB : 0 < B) (l : List Nat) :
    (chunksOf B l).flatten = l :=
  chunksGo_join B hB l.length l (le_refl _)

lemma deltaExecTrace_tombs_first (delOk bOkAt cOkAt : Nat → Bool) (B : Nat)
    (ids : List Nat) (hne : ids ≠ []) :
    (deltaExecTrace delOk bOkAt cOkAt B ids).take ids.length =
      ids.map DeltaEv.addTomb ∧
    (∀ i e, (deltaExecTrace delOk bOkAt cOkAt B ids)[i]? = some e →
      isDelAttempt e = true → ids.length ≤ i) := by
  have hne2 : ids.isEmpty = false := List.isEmpty_eq_false.mpr hne
  have htr : deltaExecTrace delOk bOkAt cOkAt B ids =
      ids.map DeltaEv.addTomb ++
        chunksTrace delOk bOkAt cOkAt (chunksOf B ids) 1 := by
    unfold deltaExecTrace
    rw [hne2]
    simp
  constructor
  · rw [htr]
    have hlen : ids.length = (ids.map DeltaEv.addTomb).length := by
      rw [List.length_map]
    rw [hlen, List.take_left]
  · intro i e he hdel
    by_contra hlt
    push_neg at hlt
    rw [htr] at he
    have hilt : i < (ids.map DeltaEv.addTomb).length := by
      rw [List.length_map]
      omega
    rw [List.getElem?_append, if_pos hilt, List.getElem?_map] at he
    cases hid : ids[i]? with
    | none =>
      rw [hid] at he
      simp at he
    | some a =>
      rw [hid] at he
      simp only [Option.map_some', Option.some.injEq] at he
      rw [← he] at hdel
      simp [isDelAttempt] at hdel

/-- Claim C9: in every delta run a tombstone is recorded for each
discovered deleted id before any destination delete is attempted; every
`markProcessed` event is immediately preceded by its chunk commit (so
ids are marked only after the chunk transaction commits); and with all
chunk transactions committing, the marked chunks are exactly the
batch-size chunking of the discovered ids — independent of individual
delete outcomes — whose concatenation covers every discovered id. -/
theorem claim_C9_delta_tombstones (delOk bOkAt cOkAt : Nat → Bool)
    (B : Nat) (ids : List Nat) :
    (ids ≠ [] →
      (deltaExecTrace delOk bOkAt cOkAt B ids).take ids.length =
        ids.map DeltaEv.addTomb ∧
      (∀ i e, (deltaExecTrace delOk bOkAt cOkAt B ids)[i]? = some e →
        isDelAttempt e = true → ids.length ≤ i)) ∧
    marksFollowCommit (deltaExecTrace delOk bOkAt cOkAt B ids) = true ∧
    ((∀ n, bOkAt n = true) → (∀ n, cOkAt n = true) →
      marksOf (deltaExecTrace delOk bOkAt cOkAt B ids) = chunksOf B ids) ∧
    (1 ≤ B → (chunksOf B ids).flatten = ids) := by
  refine ⟨?_, deltaExecTrace_mfc delOk bOkAt cOkAt B ids, ?_, ?_⟩
  · intro hne
    exact deltaExecTrace_tombs_first delOk bOkAt cOkAt B ids hne
  · intro hb hc
    exact marksOf_deltaExecTrace delOk bOkAt cOkAt B ids hb hc
  · intro hB
    exact chunksOf_join B (by omega) ids

/-- Witness for C9: for deleted ids 7, 9, 12 with batch size 2, all
tombstones precede the deletes and the marked chunks are exactly the
chunking of the ids. -/
theorem claim_C9_delta_tombstones_witness :
    (deltaExecTrace (fun _ => true) (fun _ => true) (fun _ => true) 2
      [7, 9, 12]).take 3 = [7, 9, 12].map DeltaEv.addTomb ∧
    marksOf (deltaExecTrace (fun _ => true) (fun _ => true)
      (fun _ => true) 2 [7, 9, 12]) = chunksOf 2 [7, 9, 12] ∧
    (chunksOf 2 [7, 9, 12]).flatten = [7, 9, 12] :=
  ⟨((claim_C9_delta_tombstones (fun _ => true) (fun _ => true)
      (fun _ => true) 2 [7, 9, 12]).1 (by decide)).1,
    (claim_C9_delta_tombstones (fun _ => true) (fun _ => true)
      (fun _ => true) 2 [7, 9, 12]).2.2.1 (fun _ => rfl) (fun _ => rfl),
    (claim_C9_delta_tombstones (fun _ => true) (fun _ => true)
      (fun _ => true) 2 [7, 9, 12]).2.2.2 (by omega)⟩

end StarSeed
